import Mathlib

/-!
Shallow embedding of the layout-reconstruction core of the
`pdf_to_excel_data_extraction` repository, and proofs about the frozen claims.

Sources embedded:
  - `src/src/extractor_gap.py` : gap-based engine, header-cols engine, engine selector
  - `src/src/extractor.py`     : grid-engine rebuild decision and value normalizer
  - `src/src/pdf_type_detector.py` : page topology classifier

Python floats are modelled as exact rationals (`ℚ`); the claims under study are
about control flow and exact string/geometry manipulation, not float rounding.
Python strings are Lean `String`s; the handful of regular expressions in the
source are compiled by hand into executable character-list matchers whose
semantics (leftmost match, resume after the match, greedy character classes
with the only feasible backtracks resolved statically) mirror `re.match`,
`re.search` and `re.sub` on the pattern in question.  Each matcher is
documented with the regex it implements.
-/

set_option allowUnsafeReducibility true
attribute [semireducible] Rat.add Rat.mul Rat.sub Rat.div Rat.inv Rat.neg Rat.floor Rat.ofScientific Rat.blt

/-! ### Character and string helpers -/

/-- Python `\s` / `str.strip` whitespace on the character sets that occur in
PDF word text: space, tab, newline, carriage return, vertical tab, form feed. -/
def isPySpace (c : Char) : Bool :=
  c = ' ' || c = '\t' || c = '\n' || c = '\r' || c = '\x0b' || c = '\x0c'

/-- Python `str.strip()`: drop leading and trailing whitespace. -/
def stripL (l : List Char) : List Char :=
  ((l.dropWhile isPySpace).reverse.dropWhile isPySpace).reverse

/-- Python `str.strip()` on a `String`. -/
def pyStrip (s : String) : String := ⟨stripL s.data⟩

/-- Python `" ".join(parts)`: single space between successive parts, including
empty ones. -/
def joinSp : List String → String
  | [] => ""
  | [t] => t
  | t :: t2 :: ts => t ++ " " ++ joinSp (t2 :: ts)

/-- Python `str.upper()` (ASCII, which is all the source vocabulary uses). -/
def upperStr (s : String) : String := ⟨s.data.map Char.toUpper⟩

/-- Python `text.upper().rstrip('#')` as used on header words. -/
def upperNoHash (s : String) : String :=
  ⟨((s.data.map Char.toUpper).reverse.dropWhile (fun c => c = '#')).reverse⟩

/-- Strip an explicit literal prefix, returning the remainder on success. -/
def stripPfx : List Char → List Char → Option (List Char)
  | [], l => some l
  | _ :: _, [] => none
  | p :: ps, c :: cs => if c = p then stripPfx ps cs else none

/-- Python `pat in hay` substring test, on character lists. -/
def subListB (pat : List Char) : List Char → Bool
  | [] => pat.isEmpty
  | c :: rest => pat.isPrefixOf (c :: rest) || subListB pat rest

/-- Python `pat in hay` substring test on strings. -/
def containsStr (hay pat : String) : Bool := subListB pat.data hay.data

/-- Python `str.startswith`, used for the anchored `^Word` regex alternatives. -/
def startsWithL (s p : String) : Bool := (stripPfx p.data s.data).isSome

/-- Stable insertion into a list sorted by `le` (ties keep existing elements
first, matching Python's stable `sorted`). -/
def insertLe {α : Type} (le : α → α → Bool) (x : α) : List α → List α
  | [] => [x]
  | y :: ys => if le y x then y :: insertLe le x ys else x :: y :: ys

/-- Stable sort (insertion sort), matching Python's `sorted` for a total key. -/
def sortLe {α : Type} (le : α → α → Bool) (l : List α) : List α :=
  l.foldl (fun acc x => insertLe le x acc) []

/-- Model of `sorted` on rationals. -/
def sortRat (l : List ℚ) : List ℚ := sortLe (fun a b => decide (a ≤ b)) l

/-! ### Regex matchers from src/src/extractor_gap.py and src/src/extractor.py -/

/-- Model of `_NUM_RE = ^[\d,\(\)\-\.]+$` via `re.match`: the whole token consists of
digits, commas, parentheses, hyphens and periods (nonempty). -/
def isNumTok (s : String) : Bool :=
  !s.data.isEmpty &&
    s.data.all (fun c => c.isDigit || c = ',' || c = '(' || c = ')' || c = '-' || c = '.')

/-- Model of `_DATE_RE = ^\d{4}$|^30th$|^31st$|^September|^March|^December|^June` via
`re.match`. -/
def isDateTok (s : String) : Bool :=
  (s.data.length = 4 && s.data.all Char.isDigit) || s = "30th" || s = "31st" ||
    startsWithL s "September" || startsWithL s "March" ||
    startsWithL s "December" || startsWithL s "June"

/-- Match `version\s*:\s*\d` at the head of an (already lowercased) character
list — one alternative of `_FOOTER_RE` (compiled with `re.IGNORECASE`). -/
def matchVersionColon (l : List Char) : Bool :=
  match stripPfx "version".data l with
  | none => false
  | some r =>
    match r.dropWhile isPySpace with
    | ':' :: r2 =>
      match r2.dropWhile isPySpace with
      | d :: _ => d.isDigit
      | [] => false
    | _ => false

/-- Search loop for `_FOOTER_RE = Version\s*:\s*\d|Date of upload` (ignorecase):
try each suffix of the lowercased text. -/
def footerSearchL : List Char → Bool
  | [] => false
  | c :: rest =>
    matchVersionColon (c :: rest) || (stripPfx "date of upload".data (c :: rest)).isSome ||
      footerSearchL rest

/-- Model of `_FOOTER_RE.search(s)` (ignorecase). -/
def footerSearch (s : String) : Bool := footerSearchL (s.data.map Char.toLower)

/-- Match `version\s*[:\.]?\s*\d` at the head of a lowercased character list —
first alternative of `_FOOTER_HDR_RE`.  The optional `[:\.]` cannot profit
from backtracking (no space is ever `:` or `.`), so greedy space-skipping is
exact. -/
def matchVersionOpt (l : List Char) : Bool :=
  match stripPfx "version".data l with
  | none => false
  | some r =>
    let r1 := r.dropWhile isPySpace
    let r2 := match r1 with
      | c :: rest => if c = ':' || c = '.' then rest else r1
      | [] => r1
    match r2.dropWhile isPySpace with
    | d :: _ => d.isDigit
    | [] => false

/-- Match `date\s+of\s+upload` at the head of a lowercased character list —
second alternative of `_FOOTER_HDR_RE`. -/
def matchDateUpload (l : List Char) : Bool :=
  match stripPfx "date".data l with
  | none => false
  | some r =>
    match r with
    | c :: _ =>
      if isPySpace c then
        match stripPfx "of".data (r.dropWhile isPySpace) with
        | none => false
        | some r2 =>
          match r2 with
          | c2 :: _ =>
            if isPySpace c2 then (stripPfx "upload".data (r2.dropWhile isPySpace)).isSome
            else false
          | [] => false
      else false
    | [] => false

/-- Search loop for the first two alternatives of `_FOOTER_HDR_RE`. -/
def footerHdrSearchL : List Char → Bool
  | [] => false
  | c :: rest => matchVersionOpt (c :: rest) || matchDateUpload (c :: rest) || footerHdrSearchL rest

/-- Third alternative `^\s*\d+\s*$` of `_FOOTER_HDR_RE`: the whole string is
optional spaces, one or more digits, optional spaces (without `re.MULTILINE`,
`^`/`$` anchor at the string ends). -/
def digitsOnlyLine (l : List Char) : Bool :=
  let a := l.dropWhile isPySpace
  !(a.takeWhile Char.isDigit).isEmpty && (a.dropWhile Char.isDigit).all isPySpace

/-- Model of `_FOOTER_HDR_RE.search(s)` with
`_FOOTER_HDR_RE = Version\s*[:\.]?\s*\d|Date\s+of\s+upload|^\s*\d+\s*$`
(ignorecase). -/
def footerHdrSearch (s : String) : Bool :=
  let low := s.data.map Char.toLower
  footerHdrSearchL low || digitsOnlyLine low

/-- Model of `_EMBEDDED_NUM_RE = \d{3,}[,\d]*` via `re.search`: succeeds exactly when
three consecutive digits occur somewhere (the `[,\d]*` tail is optional). -/
def threeDigitsRun : List Char → Bool
  | a :: b :: c :: rest => (a.isDigit && b.isDigit && c.isDigit) || threeDigitsRun (b :: c :: rest)
  | _ => false

/-- Model of `_EMBEDDED_NUM_RE.search(s)`. -/
def embeddedNumSearch (s : String) : Bool := threeDigitsRun s.data

/-- Model of `_MERGED_SCHED_RE = ^L-\d+[,\d\(\)]+` via `re.match`.  With backtracking on
the greedy `\d+`, the pattern matches exactly when the string starts with
`L-`, its third character is a digit, and a fourth character exists that is a
digit, comma or parenthesis (the shortest split `\d+ := one digit` always
works when any split does, since digits also belong to the second class). -/
def mergedSchedMatch (s : String) : Bool :=
  match s.data with
  | 'L' :: '-' :: d :: c4 :: _ => d.isDigit && (c4.isDigit || c4 = ',' || c4 = '(' || c4 = ')')
  | _ => false

/-- Model of `_SCHED_COL_RE = ^L-\d+$` via `re.match`: `L-` followed by only digits. -/
def schedColMatch (s : String) : Bool :=
  match s.data with
  | 'L' :: '-' :: rest => !rest.isEmpty && rest.all Char.isDigit
  | _ => false

/-- Model of `re.search(r"\d\s+[,\d]", s)`: some position holds a digit, then one or
more whitespace characters, then a comma or digit. -/
def digitSpaceSearchL : List Char → Bool
  | [] => false
  | c :: rest =>
    (c.isDigit && !(rest.takeWhile isPySpace).isEmpty &&
      (match rest.dropWhile isPySpace with
       | d :: _ => d.isDigit || d = ','
       | [] => false)) || digitSpaceSearchL rest

/-- Model of `re.search(r"\d\s+[,\d]", s)` on a string. -/
def digitSpaceSearch (s : String) : Bool := digitSpaceSearchL s.data

/-! ### The ValueNormalizer: `_fix_number_splits`

`re.sub(r"(\d)\s+([,\d])", r"\1\2", v)` scans left to right; a match consumes
the digit, the whitespace run and the following comma-or-digit, emits the
digit and that character, and scanning resumes *after* the consumed
character.  `sub1Go` is the equivalent one-pass automaton; the pending buffer
holds a digit possibly followed by buffered whitespace. -/

def sub1Go : List Char → Option (Char × List Char) → List Char
  | [], none => []
  | [], some (d, sps) => d :: sps
  | c :: rest, none =>
    if c.isDigit then sub1Go rest (some (c, []))
    else c :: sub1Go rest none
  | c :: rest, some (d, sps) =>
    if isPySpace c then sub1Go rest (some (d, sps ++ [c]))
    else if sps.isEmpty then
      -- digit immediately followed by a non-space: no match at the digit
      if c.isDigit then d :: sub1Go rest (some (c, []))
      else d :: c :: sub1Go rest none
    else if c.isDigit || c = ',' then
      -- full match: emit "\1\2", drop the whitespace, resume after the match
      d :: c :: sub1Go rest none
    else
      d :: (sps ++ c :: sub1Go rest none)

/-- Model of `re.sub(r"(\d)\s+([,\d])", r"\1\2", ·)` on a character list. -/
def sub1L (l : List Char) : List Char := sub1Go l none

/-- Model of `re.sub(r"\(\s+", "(", v)`: an open parenthesis followed by whitespace
drops the whitespace; scanning resumes after the whitespace, so the next
character may itself start a new match.  The pending buffer holds the
whitespace seen after an open parenthesis.  At end of input a pending
nonempty run of whitespace completes the match and is dropped, and a bare
pending `(` saw no whitespace and does not match, so either way only the
parenthesis is emitted. -/
def sub2Go : List Char → Option (List Char) → List Char
  | [], none => []
  | [], some _ => ['(']
  | c :: rest, none =>
    if c = '(' then sub2Go rest (some [])
    else c :: sub2Go rest none
  | c :: rest, some sps =>
    if isPySpace c then sub2Go rest (some (sps ++ [c]))
    else if c = '(' then '(' :: sub2Go rest (some [])
    else '(' :: c :: sub2Go rest none

/-- Model of `re.sub(r"\(\s+", "(", ·)` on a character list. -/
def sub2L (l : List Char) : List Char := sub2Go l none

/-- Match the alternation `(30th|31st|[A-Z][a-z]+)` of `_SMASH_RE` at the head,
returning the remainder after the (greedy) match. -/
def smashAlt (l : List Char) : Option (List Char) :=
  if "30th".data.isPrefixOf l then some (l.drop 4)
  else if "31st".data.isPrefixOf l then some (l.drop 4)
  else
    match l with
    | c :: cs =>
      if c.isUpper then
        if (cs.takeWhile Char.isLower).isEmpty then none
        else some (cs.drop (cs.takeWhile Char.isLower).length)
      else none
    | [] => none

/-- Match `_SMASH_RE = (\d{4})\s*(30th|31st|[A-Z][a-z]+)` at the head of `l`:
on success return the four digits (group 1, the replacement) and the
remainder after the whole match. -/
def smashAt (l : List Char) : Option (List Char × List Char) :=
  if (l.take 4).length = 4 && (l.take 4).all Char.isDigit then
    match smashAlt ((l.drop 4).dropWhile isPySpace) with
    | some rest2 => some (l.take 4, rest2)
    | none => none
  else none

/-- Model of `_SMASH_RE.sub(r"\1", ·)`: leftmost-match scan with resumption after each
match.  Fuel-indexed for structural recursion; a match always consumes at
least five characters, so `l.length` fuel suffices. -/
def smashGo : Nat → List Char → List Char
  | 0, l => l
  | _ + 1, [] => []
  | fuel + 1, c :: rest =>
    match smashAt (c :: rest) with
    | some (y4, after) => y4 ++ smashGo fuel after
    | none => c :: smashGo fuel rest

/-- Model of `_SMASH_RE.sub(r"\1", ·)` on a character list. -/
def smashSub (l : List Char) : List Char := smashGo l.length l

/-- Per-cell body of `_fix_number_splits` of src/src/extractor_gap.py (lines
74–90): the digit-split sub, the parenthesis sub, the smashed-date sub and a
final `strip()`; empty (falsy) cells pass through untouched. -/
def fixCellGap (cell : String) : String :=
  if cell = "" then cell
  else ⟨stripL (smashSub (sub2L (sub1L cell.data)))⟩

/-- Model of `_fix_number_splits` of src/src/extractor_gap.py (lines 74–90). -/
def fix_number_splits (row : List String) : List String :=
  row.map fixCellGap

/-- Per-cell body of `_fix_number_splits` of src/src/extractor.py (lines
105–118): only the digit-split and parenthesis subs, no date collapse, no
strip. -/
def fixCellPP (cell : String) : String :=
  if cell = "" then cell
  else ⟨sub2L (sub1L cell.data)⟩

/-- Model of `_fix_number_splits` of src/src/extractor.py (lines 105–118). -/
def fix_number_splits_pp (row : List String) : List String :=
  row.map fixCellPP

/-- Flattened pending buffer of the `sub1Go` automaton (what would be emitted
if the input ended here). -/
def bufFlat1 : Option (Char × List Char) → List Char
  | none => []
  | some (d, sps) => d :: sps

/-- Flattened pending buffer of the `sub2Go` automaton. -/
def bufFlat2 : Option (List Char) → List Char
  | none => []
  | some sps => '(' :: sps

/-! ### Word tokens and row grouping -/

/-- A word reported by the page-geometry provider (`page.extract_words`). -/
structure WordToken where
  text : String
  x0 : ℚ
  x1 : ℚ
  top : ℚ
  bottom : ℚ
deriving DecidableEq, Repr

instance : Inhabited WordToken := ⟨⟨"", 0, 0, 0, 0⟩⟩

/-- Stable sort by vertical position. -/
def sortByTop (ws : List WordToken) : List WordToken :=
  sortLe (fun a b => decide (a.top ≤ b.top)) ws

/-- Stable sort by horizontal position. -/
def sortByX0 (ws : List WordToken) : List WordToken :=
  sortLe (fun a b => decide (a.x0 ≤ b.x0)) ws

/-- Grouping loop of `_group_rows`: the current group is kept reversed so its
head is the most recently added word (Python compares against `cur[-1]`). -/
def groupRowsGo (y_tol : ℚ) : List WordToken → List WordToken → List (List WordToken)
  | [], revCur => [sortByX0 revCur.reverse]
  | w :: ws, revCur =>
    if decide (|w.top - (revCur.headD default).top| ≤ y_tol) then
      groupRowsGo y_tol ws (w :: revCur)
    else
      sortByX0 revCur.reverse :: groupRowsGo y_tol ws [w]

/-- Model of `_group_rows(words, y_tol)` of src/src/extractor_gap.py (lines 58–71):
cluster words into rows by y-proximity to the previous word, each row sorted
by x0.  All gap-module call sites use the default `y_tol = 4`. -/
def group_rows (words : List WordToken) (y_tol : ℚ) : List (List WordToken) :=
  match sortByTop words with
  | [] => []
  | w :: ws => groupRowsGo y_tol ws [w]

/-- Model of `_is_footer_row(row)`: footer signature over the space-joined non-empty
cells. -/
def is_footer_row (row : List String) : Bool :=
  footerSearch (joinSp (row.filter (fun c => c ≠ "")))

/-- Model of `_row_is_text_only(rw, left_cutoff)`. -/
def row_is_text_only (rw : List WordToken) (left_cutoff : ℚ) : Bool :=
  rw.all (fun w => decide (w.x0 < left_cutoff))

/-- Model of `_has_date_tokens(rw)`. -/
def has_date_tokens (rw : List WordToken) : Bool :=
  rw.any (fun w => isDateTok w.text)

/-- Model of `_has_data_numbers(rw, boundary)`. -/
def has_data_numbers (rw : List WordToken) (boundary : ℚ) : Bool :=
  rw.any (fun w => isNumTok w.text && decide (w.x0 > boundary))

/-! ### Engine A — gap-based (src/src/extractor_gap.py lines 116–447) -/

/-- Clustering loop of `_detect_data_columns`: `num_xs` is ascending, a gap
above `_MIN_COL_GAP = 20` starts a new cluster.  The current cluster is kept
reversed so its head is the last appended x. -/
def clusterGo : List ℚ → List ℚ → List (List ℚ)
  | [], revCur => [revCur.reverse]
  | x :: xs, revCur =>
    if decide (x - revCur.headD 0 > 20) then revCur.reverse :: clusterGo xs [x]
    else clusterGo xs (x :: revCur)

/-- Python `min(c)` for a nonempty list (0 on the unreachable empty list). -/
def minD (c : List ℚ) : ℚ :=
  match c with
  | [] => 0
  | h :: t => t.foldl min h

/-- Python `max(c)` for a nonempty list (0 on the unreachable empty list). -/
def maxD (c : List ℚ) : ℚ :=
  match c with
  | [] => 0
  | h :: t => t.foldl max h

/-- Model of `left_cutoff` of `_detect_data_columns` (line 121): 40% of the page width
when the width is truthy (not `None`, not 0), else 200. -/
def leftCutoff (page_width : Option ℚ) : ℚ :=
  match page_width with
  | some w => if w = 0 then 200 else w * (0.40 : ℚ)
  | none => 200

/-- Model of `num_xs` of `_detect_data_columns` (lines 123–126): sorted x-positions of
numeric tokens right of the cutoff. -/
def numXs (words : List WordToken) (left_cutoff : ℚ) : List ℚ :=
  sortRat
    ((words.filter (fun w => isNumTok w.text && decide (w.x0 > left_cutoff))).map
      (fun w => w.x0))

/-- Cluster list of `_detect_data_columns` (lines 131–136). -/
def clustersOf (xs : List ℚ) : List (List ℚ) :=
  match xs with
  | [] => []
  | x :: rest => clusterGo rest [x]

/-- Model of `_detect_data_columns(words, page_width)` (lines 116–139): cluster the
x-positions of numeric tokens right of the cutoff into column ranges; `None`
when fewer than `_MIN_CLUSTER_TOKENS * 2 = 6` numeric tokens qualify or no
cluster reaches 3 tokens. -/
def detect_data_columns (words : List WordToken) (page_width : Option ℚ) :
    Option (List (ℚ × ℚ)) :=
  if (numXs words (leftCutoff page_width)).length < 6 then none
  else
    if ((clustersOf (numXs words (leftCutoff page_width))).filter
        (fun c => 3 ≤ c.length)).isEmpty then none
    else
      some (((clustersOf (numXs words (leftCutoff page_width))).filter
        (fun c => 3 ≤ c.length)).map (fun c => (minD c, maxD c)))

/-- Model of `_build_boundaries(col_ranges)` (lines 142–146): midpoints between the
right edge of one range and the left edge of the next. -/
def build_boundaries (col_ranges : List (ℚ × ℚ)) : List ℚ :=
  (List.zip col_ranges col_ranges.tail).map (fun p => (p.1.2 + p.2.1) / 2)

/-- Model of `_assign_by_boundary(xc, boundaries, num_cols)` (lines 149–156): start at
column 1 and advance past every leading boundary with `xc > b`, capped at
`num_cols - 1`. -/
def assign_by_boundary (xc : ℚ) (boundaries : List ℚ) (num_cols : Nat) : Nat :=
  min (1 + (boundaries.takeWhile (fun b => decide (xc > b))).length) (num_cols - 1)

/-- Column index chosen for a word in the gap engine's row-filling loop
(extract_gap_based lines 434–437). -/
def gapCi (is_header : Bool) (pb : ℚ) (boundaries : List ℚ) (num_cols : Nat)
    (w : WordToken) : Nat :=
  if is_header then
    if w.text = "Particulars" then 0
    else assign_by_boundary ((w.x0 + w.x1) / 2) boundaries num_cols
  else
    if decide (w.x0 < pb) then 0
    else assign_by_boundary ((w.x0 + w.x1) / 2) boundaries num_cols

/-- One step of the gap engine's row-filling loop (line 438):
`row[ci] = (row[ci] + " " + w["text"]).strip()`. -/
def stripStep (ciFor : WordToken → Nat) (row : List String) (w : WordToken) :
    List String :=
  row.set (ciFor w) (pyStrip (row.getD (ciFor w) "" ++ " " ++ w.text))

/-- Row-filling loop of the gap engine (lines 431–438) over an initial list of
`num_cols` empty cells. -/
def buildRowStrip (ciFor : WordToken → Nat) (num_cols : Nat) (rw : List WordToken) :
    List String :=
  rw.foldl (stripStep ciFor) (List.replicate num_cols "")

/-- Text-only-row branch of `extract_gap_based` (lines 420–424): the joined,
stripped text fills column 0, padded with empty cells; blank and footer texts
are dropped. -/
def gapTextRow (num_cols : Nat) (text : String) : Option (List String) :=
  if text ≠ "" && !footerSearch text then some (text :: List.replicate (num_cols - 1) "")
  else none

/-- Data-row filter of `extract_gap_based` (lines 440–445): drop all-blank
rows and footer rows, normalize the rest. -/
def gapDataRow (row : List String) : Option (List String) :=
  if !(row.any (fun c => pyStrip c ≠ "")) then none
  else if is_footer_row row then none
  else some (fix_number_splits row)

/-- Per-row processing of `extract_gap_based` (lines 416–445): text-only rows
collapse into column 0 (dropped when blank or footer); other rows are filled
by column assignment, then blank and footer rows are dropped and the
normalizer applied.  `is_header` is the date-tokens-without-data-numbers test
of lines 426–429. -/
def gapProcessRow (pb : ℚ) (boundaries : List ℚ) (num_cols : Nat)
    (rw : List WordToken) : Option (List String) :=
  if rw.isEmpty then none
  else if row_is_text_only rw pb then
    gapTextRow num_cols (pyStrip (joinSp (rw.map (fun w => w.text))))
  else
    gapDataRow (buildRowStrip
      (gapCi (has_date_tokens rw && !has_data_numbers rw pb) pb boundaries num_cols)
      num_cols rw)

/-- Row list produced by `extract_gap_based` for detected column ranges
`cr0 :: crs`: `particulars_boundary = cr0.min − 15`, boundary midpoints, and
`num_cols = 1 + #ranges` (lines 403–414 and the main loop). -/
def gapResultRows (words : List WordToken) (cr0 : ℚ × ℚ) (crs : List (ℚ × ℚ)) :
    List (List String) :=
  (group_rows words 4).filterMap
    (gapProcessRow (cr0.1 - 15) (build_boundaries (cr0 :: crs)) (1 + (cr0 :: crs).length))

/-- Final `result or None` step of `extract_gap_based`. -/
def gapFinish (words : List WordToken) (cr0 : ℚ × ℚ) (crs : List (ℚ × ℚ)) :
    Option (List (List String)) :=
  if (gapResultRows words cr0 crs).isEmpty then none
  else some (gapResultRows words cr0 crs)

/-- Model of `extract_gap_based` body after the bbox word filtering. -/
def gapExtractOn (words : List WordToken) (pageWidth : ℚ) : Option (List (List String)) :=
  if words.isEmpty then none
  else
    match detect_data_columns words (some pageWidth) with
    | none => none
    | some [] => none
    | some (cr0 :: crs) => gapFinish words cr0 crs

/-- Model of `extract_gap_based(page, bbox)` (lines 381–447).  The page is represented
by its extracted words and width; `bbox` filters words as in the source. -/
def extract_gap_based (pageWords : List WordToken) (pageWidth : ℚ)
    (bbox : Option (ℚ × ℚ × ℚ × ℚ)) : Option (List (List String)) :=
  match bbox with
  | some (x0b, top, x1b, bottom) =>
    gapExtractOn
      (pageWords.filter (fun w =>
        decide (x0b ≤ w.x0) && decide (w.x0 ≤ x1b) &&
        decide (top ≤ w.top) && decide (w.top ≤ bottom)))
      pageWidth
  | none => gapExtractOn pageWords pageWidth

/-! ### Engine B — header_cols (src/src/extractor_gap.py lines 454–620) -/

/-- Model of `_HDR_COL_WORDS`. -/
def HDR_COL_WORDS : List String :=
  ["LIFE", "PENSION", "HEALTH", "HEALTH#", "ANNUITY", "TOTAL", "VAR.INS", "VAR.",
   "INS", "INS.", "VARIABLE"]

/-- Membership of a word (uppercased, trailing `#` stripped) in the header
vocabulary. -/
def isHdrWord (s : String) : Bool := HDR_COL_WORDS.contains (upperNoHash s)

/-- Keyword score of one row. -/
def headerRowScore (row : List WordToken) : Nat :=
  row.countP (fun w => isHdrWord w.text)

/-- Best-header-row loop of `detect_col_centers` (lines 473–480): first row of
strictly maximal score; `(None, 0)` when every score is 0. -/
def bestHeaderRow (rows : List (List WordToken)) : Option Nat × Nat :=
  (rows.foldl
    (fun st row =>
      let sc := headerRowScore row
      if sc > st.2.2 then (st.1 + 1, (some st.1, sc)) else (st.1 + 1, st.2))
    ((0 : Nat), ((none : Option Nat), (0 : Nat)))).2

/-- Python `round(x, 0)`: banker's rounding (half to even). -/
def pyRound (q : ℚ) : ℚ :=
  let f : ℤ := ⌊q⌋
  let r : ℚ := q - f
  if r < 1/2 then (f : ℚ)
  else if r > 1/2 then (f : ℚ) + 1
  else if f % 2 = 0 then (f : ℚ) else (f : ℚ) + 1

/-- Deduplicated center collection: round the midpoint, skip when within 10 of
a seen rounded center, else append the unrounded midpoint and record the
rounded one (lines 511–514, 521–524, 533–536). -/
def addCenter (mid : ℚ) (st : List ℚ × List ℚ) : List ℚ × List ℚ :=
  let c := pyRound mid
  if st.2.any (fun s => decide (|c - s| < 10)) then st
  else (st.1 ++ [mid], st.2 ++ [c])

/-- Header-row center collection with adjacent-word span merging (lines
488–514).  A pending span `(x0_span, x1_span)` absorbs any next word whose
gap to the span is below 5 (marking it used); a non-adjacent word closes the
span — emitting its center — and may start a new one if it is a header word. -/
def hdrSpanGo : List WordToken → Option (ℚ × ℚ) → List ℚ × List ℚ → List ℚ × List ℚ
  | [], none, st => st
  | [], some (a, b), st => addCenter ((a + b) / 2) st
  | w :: rest, none, st =>
    if isHdrWord w.text then hdrSpanGo rest (some (w.x0, w.x1)) st
    else hdrSpanGo rest none st
  | w :: rest, some (a, b), st =>
    if decide (w.x0 - b < 5) then hdrSpanGo rest (some (a, w.x1)) st
    else
      let st2 := addCenter ((a + b) / 2) st
      if isHdrWord w.text then hdrSpanGo rest (some (w.x0, w.x1)) st2
      else hdrSpanGo rest none st2

/-- Scan rows within ±2 of the best header row (skipping it) for a `TOTAL`
header word (lines 517–524). -/
def totalScanRows (rows : List (List WordToken)) (bi : Nat) (st : List ℚ × List ℚ) :
    List ℚ × List ℚ :=
  (List.range rows.length).foldl
    (fun st ri =>
      if bi - 2 ≤ ri && ri < min rows.length (bi + 3) && ri ≠ bi then
        (rows.getD ri []).foldl
          (fun st w =>
            if upperNoHash w.text = "TOTAL" then addCenter ((w.x0 + w.x1) / 2) st else st)
          st
      else st)
    st

/-- Scan all rows for `GRAND` followed (≥ 5 units right) by `TOTAL` (lines
528–536). -/
def grandScanRows (rows : List (List WordToken)) (st : List ℚ × List ℚ) :
    List ℚ × List ℚ :=
  rows.foldl
    (fun st row =>
      row.foldl
        (fun st w =>
          if w.text = "GRAND" || w.text = "Grand" then
            match row.filter (fun ww => decide (ww.x0 ≥ w.x0 + 5)) with
            | [] => st
            | nxt0 :: _ =>
              if nxt0.text = "TOTAL" || nxt0.text = "Total" then
                addCenter ((nxt0.x0 + nxt0.x1) / 2) st
              else st
          else st)
        st)
    st

/-- The full sorted center list collected by `detect_col_centers` for best
header row `bi`. -/
def allCenters (rows : List (List WordToken)) (bi : Nat) : List ℚ :=
  sortRat (grandScanRows rows (totalScanRows rows bi
    (hdrSpanGo (rows.getD bi []) none ([], [])))).1

/-- Leftmost schedule-reference x-position: `min` of the `x0` of words exactly
matching `^L-\d+$` with `top > 60` (lines 544–548), `none` when absent. -/
def schedX (words : List WordToken) : Option ℚ :=
  match (words.filter (fun w => schedColMatch w.text && decide (w.top > 60))).map
      (fun w => w.x0) with
  | [] => none
  | x :: xs => some (xs.foldl min x)

/-- Particulars boundary: first center minus half the first inter-center gap
(half-gap 20 when only one center exists) — lines 551–552. -/
def partBoundary (col_centers : List ℚ) : ℚ :=
  col_centers.getD 0 0 -
    (if 1 < col_centers.length then (col_centers.getD 1 0 - col_centers.getD 0 0) / 2
     else 20)

/-- Continuation of `detect_col_centers` once the best header row `bi` is
known: fail below 6 centers, else return the triple (lines 538–554). -/
def detectTail (words : List WordToken) (bi : Nat) : Option (List ℚ × Option ℚ × ℚ) :=
  if (allCenters (group_rows words 4) bi).length < 6 then none
  else
    some (allCenters (group_rows words 4) bi, schedX words,
      partBoundary (allCenters (group_rows words 4) bi))

/-- Model of `detect_col_centers(words, page_width)` (lines 454–554): `(None, None,
None)` — modelled as `none` — when the best keyword score is below
`_MIN_HDR_SCORE = 4` or fewer than `_MIN_HDR_COLS = 6` centers are found;
otherwise the sorted centers, the leftmost schedule-reference x and the
Particulars boundary. -/
def detect_col_centers (words : List WordToken) (_page_width : ℚ) :
    Option (List ℚ × Option ℚ × ℚ) :=
  if (bestHeaderRow (group_rows words 4)).2 < 4 then none
  else
    match (bestHeaderRow (group_rows words 4)).1 with
    | none => none
    | some bi => detectTail words bi

/-- Model of `_assign(w)` inside `extract_header_cols` (lines 588–602): schedule zone
first, then the Particulars threshold, then zone lookup between boundary
midpoints. -/
def hdrAssign (has_sched : Bool) (sched_x : ℚ) (part_bnd : ℚ) (boundaries : List ℚ)
    (w : WordToken) : Nat :=
  let xc := (w.x0 + w.x1) / 2
  if has_sched && decide (|xc - sched_x| < 20) then 1
  else if decide (xc < part_bnd) then 0
  else (boundaries.takeWhile (fun b => decide (xc > b))).length + (if has_sched then 2 else 1)

/-- One step of the header engine's row-filling loop (lines 610–614):
separator only before a nonempty cell, guarded by `0 <= ci < total_cols`. -/
def sepStep (ciFor : WordToken → Nat) (total_cols : Nat) (row : List String)
    (w : WordToken) : List String :=
  if ciFor w < total_cols then
    row.set (ciFor w)
      (row.getD (ciFor w) "" ++
        (if row.getD (ciFor w) "" = "" then "" else " ") ++ w.text)
  else row

/-- Row-filling loop of `extract_header_cols` (lines 609–614). -/
def buildRowSep (ciFor : WordToken → Nat) (total_cols : Nat) (rw : List WordToken) :
    List String :=
  rw.foldl (sepStep ciFor total_cols) (List.replicate total_cols "")

/-- Model of `total_cols` of `extract_header_cols` (line 577). -/
def hdrTotalCols (col_centers : List ℚ) (sched_x : Option ℚ) : Nat :=
  col_centers.length + (if sched_x.isSome then 2 else 1)

/-- Model of `_boundaries` of `extract_header_cols` (lines 583–586): midpoints between
consecutive centers. -/
def hdrBoundaries (col_centers : List ℚ) : List ℚ :=
  (List.zip col_centers col_centers.tail).map (fun p => (p.1 + p.2) / 2)

/-- Footer filter of `extract_header_cols` (lines 615–618): drop rows whose
stripped flat join is blank or matches the footer-header signature, normalize
the rest. -/
def hdrRowFilter (row : List String) : Option (List String) :=
  if pyStrip (joinSp row) = "" || footerHdrSearch (pyStrip (joinSp row)) then none
  else some (fix_number_splits row)

/-- Per-row processing of `extract_header_cols` (lines 606–618). -/
def hdrProcessRow (col_centers : List ℚ) (sched_x : Option ℚ) (part_bnd : ℚ)
    (word_row : List WordToken) : Option (List String) :=
  if word_row.isEmpty then none
  else
    hdrRowFilter (buildRowSep
      (hdrAssign sched_x.isSome (sched_x.getD 0) part_bnd (hdrBoundaries col_centers))
      (hdrTotalCols col_centers sched_x) word_row)

/-- Final `result or None` step of `extract_header_cols`. -/
def hdrFinish (words : List WordToken) (col_centers : List ℚ) (sched_x : Option ℚ)
    (part_bnd : ℚ) : Option (List (List String)) :=
  if ((group_rows words 4).filterMap
      (hdrProcessRow col_centers sched_x part_bnd)).isEmpty then none
  else
    some ((group_rows words 4).filterMap (hdrProcessRow col_centers sched_x part_bnd))

/-- Model of `extract_header_cols(page)` (lines 557–620). -/
def extract_header_cols (pageWords : List WordToken) (pageWidth : ℚ) :
    Option (List (List String)) :=
  if pageWords.isEmpty then none
  else
    match detect_col_centers pageWords pageWidth with
    | none => none
    | some (col_centers, sched_x, part_bnd) =>
      hdrFinish pageWords col_centers sched_x part_bnd

/-! ### Engine selector (src/src/extractor_gap.py lines 627–704) -/

/-- Model of `_pp_col0_has_embedded_number(pp_data)` (lines 627–638): rows 5–19,
column-0 cell contains a 3+-digit run. -/
def pp_col0_has_embedded_number (pp_data : List (List String)) : Bool :=
  if pp_data.isEmpty then false
  else ((pp_data.drop 5).take 15).any
    (fun row => !row.isEmpty && row.headD "" ≠ "" && embeddedNumSearch (row.headD ""))

/-- Model of `_pp_has_merged_schedule(pp_data)` (lines 645–661): rows 3–29, any cell
matching `_MERGED_SCHED_RE` after stripping. -/
def pp_has_merged_schedule (pp_data : List (List String)) : Bool :=
  if pp_data.isEmpty then false
  else ((pp_data.drop 3).take 27).any
    (fun row => row.any (fun cell => cell ≠ "" && mergedSchedMatch (pyStrip cell)))

/-- Disjunction of the three override reasons of `should_use_header_cols`
(lines 687–693): (a) more header columns than pdfplumber columns, (b) an
embedded number in pdfplumber's column 0, (c) a merged schedule+value cell. -/
def headerPreferred (pp_data hdr_data : List (List String)) : Bool :=
  decide ((hdr_data.headD []).length >
      (if pp_data.isEmpty then 0 else (pp_data.headD []).length))
  || pp_col0_has_embedded_number pp_data || pp_has_merged_schedule pp_data

/-- Model of `should_use_header_cols(page, pp_data)` (lines 664–704). -/
def should_use_header_cols (pageWords : List WordToken) (pageWidth : ℚ)
    (pp_data : List (List String)) : Bool × Option (List (List String)) :=
  match detect_col_centers pageWords pageWidth with
  | none => (false, none)
  | some (col_centers, _, _) =>
    if col_centers.isEmpty || col_centers.length < 6 then (false, none)
    else
      match extract_header_cols pageWords pageWidth with
      | none => (false, none)
      | some hdr_data =>
        if hdr_data.isEmpty || hdr_data.length < 5 then (false, none)
        else if headerPreferred pp_data hdr_data then (true, some hdr_data)
        else (false, none)

/-! ### Grid engine rebuild decision (src/src/extractor.py lines 121–188) -/

/-- Model of `IRDAI_COL_KW` of `should_rebuild`. -/
def IRDAI_COL_KW : List String :=
  ["LIFE", "PENSION", "HEALTH", "ANNUITY", "VAR.INS", "VAR. INS"]

/-- Model of `sum(1 for k in IRDAI_COL_KW if k in text.upper())`. -/
def kwHitCount (cell : String) : Nat :=
  IRDAI_COL_KW.countP (fun k => containsStr (upperStr cell) k)

/-- Model of `_is_index_table(table_data)` (lines 121–129): exactly two rows and the
second row has a truthy cell containing a newline. -/
def is_index_table (t : List (List String)) : Bool :=
  match t with
  | [_, row] => row.any (fun c => c ≠ "" && c.data.contains '\n')
  | _ => false

/-- Model of `should_rebuild(table_data)` (lines 153–188).  Cells are strings (a `None`
cell of pdfplumber behaves identically to `""` in every test performed here). -/
def should_rebuild (table_data : List (List String)) : Bool :=
  if table_data.isEmpty then false
  else if is_index_table table_data then true
  else if (table_data.take 8).any (fun row => row.any (fun cell =>
      cell ≠ "" && !(cell.data.contains '\n') && 2 ≤ kwHitCount cell)) then true
  else if (table_data.take 5).any (fun row => row.any (fun cell =>
      cell ≠ "" && digitSpaceSearch cell)) then true
  else false

/-! ### Page topology classifier (src/src/pdf_type_detector.py lines 16–57) -/

/-- An embedded image's reported size (`i.get("width", 0) or 0`, etc.). -/
structure PdfImage where
  width : ℚ
  height : ℚ
deriving DecidableEq, Repr

/-- A vector line segment. -/
structure PdfLine where
  x0 : ℚ
  y0 : ℚ
  x1 : ℚ
  y1 : ℚ
deriving DecidableEq, Repr

/-- A rectangle primitive. -/
structure PdfRect where
  width : ℚ
  height : ℚ
deriving DecidableEq, Repr

/-- The geometric primitives `classify_page` inspects.  `chars` holds the
page's character objects (only their count is read). -/
structure PdfPage where
  images : List PdfImage
  chars : List String
  lines : List PdfLine
  rects : List PdfRect
  width : ℚ
  height : ℚ

/-- Model of `len(v_lines) + len(v_rects)`: vertical rule primitives (near-zero
horizontal extent, vertical extent above 20; thin tall rectangles). -/
def vRuleCount (p : PdfPage) : Nat :=
  (p.lines.filter (fun l => decide (|l.x0 - l.x1| < 1) && decide (l.y1 - l.y0 > 20))).length
  + (p.rects.filter (fun r => decide (r.width < 2) && decide (r.height > 20))).length

/-- Model of `len(h_lines) + len(h_rects)`: horizontal rule primitives. -/
def hRuleCount (p : PdfPage) : Nat :=
  (p.lines.filter (fun l => decide (|l.y0 - l.y1| < 1) && decide (l.x1 - l.x0 > 20))).length
  + (p.rects.filter (fun r => decide (r.height < 2) && decide (r.width > 20))).length

/-- Combined area of embedded images. -/
def imgArea (p : PdfPage) : ℚ :=
  (p.images.map (fun i => i.width * i.height)).sum

/-- The scanned-page test of `classify_page` lines 27–34: images present,
fewer than 20 characters, image area above half the page area. -/
def scannedCheck (p : PdfPage) : Bool :=
  !p.images.isEmpty && p.chars.length < 20 &&
    decide (imgArea p > (0.5 : ℚ) * (p.width * p.height))

/-- Model of `classify_page(page)` (lines 16–57).  The source's nested early-return
structure is flattened into one `if` chain with identical semantics: the
image/char guard and the area test both hold exactly when `scannedCheck`
does, and otherwise control always falls through to the rule counting. -/
def classify_page (p : PdfPage) : String :=
  if scannedCheck p then "scanned"
  else if 3 ≤ vRuleCount p then "lines"
  else if 3 ≤ hRuleCount p then "h_only"
  else "no_lines"

/-- Character objects produced by a list of extracted word tokens: one
single-character object per character of each word (intra-word characters;
a real page would carry at least these). -/
def charsOfWords (ws : List String) : List String :=
  (ws.map String.data).flatten.map (fun c => String.mk [c])

/-- Classifier following the claim's words rather than the source: the
`"scanned"` gate reads the number of **extracted word tokens** (`nwords`)
instead of the number of character objects (`page.chars`), everything else
unchanged.  Stated separately so it can be compared with `classify_page`. -/
def classify_page_claimed (nwords : Nat) (p : PdfPage) : String :=
  if !p.images.isEmpty && nwords < 20 &&
      decide (imgArea p > (0.5 : ℚ) * (p.width * p.height)) then "scanned"
  else if 3 ≤ vRuleCount p then "lines"
  else if 3 ≤ hRuleCount p then "h_only"
  else "no_lines"

/-- Word tokens of a mostly-image page: three words, 27 characters. -/
def scanCexWords : List String := ["Quarterly", "Financial", "Statement"]

/-- A page carrying one image of area 350000 on a 600 by 800 page (area
480000, so the image covers more than half), no rule primitives, and the 27
character objects of `scanCexWords`: fewer than 20 word tokens but at least
20 character objects. -/
def scanCexPage : PdfPage :=
  { images := [⟨500, 700⟩], chars := charsOfWords scanCexWords,
    lines := [], rects := [], width := 600, height := 800 }

/-! ### Concrete pages and tables used by witnesses and counterexamples -/

/-- Gap-engine page (width 600): three data rows with two numeric column
clusters at x ∈ [300,320] and [400,420], plus a footer row reading
`Date of upload`.  Every numeric token is right of the 40% cutoff (240). -/
def gapCexWords : List WordToken :=
  [⟨"Item", 10, 40, 100, 110⟩, ⟨"11", 300, 310, 100, 110⟩, ⟨"22", 400, 410, 100, 110⟩,
   ⟨"Itemb", 10, 40, 120, 130⟩, ⟨"33", 305, 315, 120, 130⟩, ⟨"44", 405, 415, 120, 130⟩,
   ⟨"Itemc", 10, 40, 140, 150⟩, ⟨"55", 310, 320, 140, 150⟩, ⟨"66", 410, 420, 140, 150⟩,
   ⟨"Date", 10, 30, 200, 210⟩, ⟨"of", 35, 45, 200, 210⟩, ⟨"upload", 50, 80, 200, 210⟩]

/-- The table the gap engine produces for `gapCexWords`. -/
def gapCexOut : List (List String) :=
  [["Item", "11", "22"], ["Itemb", "33", "44"], ["Itemc", "55", "66"]]

/-- Header-engine page (width 600): one header row with six spread-out header
keywords and four data rows. -/
def hdrFullWords : List WordToken :=
  [⟨"LIFE", 100, 120, 50, 60⟩, ⟨"PENSION", 150, 180, 50, 60⟩, ⟨"HEALTH", 200, 220, 50, 60⟩,
   ⟨"ANNUITY", 250, 280, 50, 60⟩, ⟨"TOTAL", 300, 325, 50, 60⟩, ⟨"VARIABLE", 350, 390, 50, 60⟩,
   ⟨"RowA", 10, 50, 70, 80⟩, ⟨"12", 100, 110, 70, 80⟩,
   ⟨"RowB", 10, 50, 90, 100⟩, ⟨"12", 100, 110, 90, 100⟩,
   ⟨"RowC", 10, 50, 110, 120⟩, ⟨"12", 100, 110, 110, 120⟩,
   ⟨"RowD", 10, 50, 130, 140⟩, ⟨"12", 100, 110, 130, 140⟩]

/-- The table the header engine produces for `hdrFullWords`. -/
def hdrFullOut : List (List String) :=
  [["", "LIFE", "PENSION", "HEALTH", "ANNUITY", "TOTAL", "VARIABLE"],
   ["RowA", "12", "", "", "", "", ""],
   ["RowB", "12", "", "", "", "", ""],
   ["RowC", "12", "", "", "", "", ""],
   ["RowD", "12", "", "", "", "", ""]]

/-- Header-engine page consisting of the header row alone: the engine yields a
one-row table, below the 5-row acceptance gate. -/
def hdrShortWords : List WordToken :=
  [⟨"LIFE", 100, 120, 50, 60⟩, ⟨"PENSION", 150, 180, 50, 60⟩, ⟨"HEALTH", 200, 220, 50, 60⟩,
   ⟨"ANNUITY", 250, 280, 50, 60⟩, ⟨"TOTAL", 300, 325, 50, 60⟩, ⟨"VARIABLE", 350, 390, 50, 60⟩]

/-- A pdfplumber candidate satisfying all three override conditions of the
engine selector: single-column rows (fewer columns than the header table), a
3+-digit number in column 0 of row 5, and a merged `L-48,568` schedule cell in
row 3. -/
def ppTriggerData : List (List String) :=
  [["a"], ["a"], ["a"], ["L-48,568"], ["a"], ["1234"]]

/-- Total character count of a row's cells — the termination measure for
iterating the value normalizer. -/
def rowLen (row : List String) : Nat := (row.map String.length).sum

/-- A page with a single non-header word: keyword score 0, so the header
engine must decline. -/
def plainWords : List WordToken := [⟨"hello", 0, 10, 0, 5⟩]

/-- A page with a single numeric token right of the cutoff: far below the
6-token minimum of the gap engine. -/
def sparseWords : List WordToken := [⟨"Item", 10, 40, 0, 10⟩, ⟨"12", 300, 310, 0, 10⟩]

/-! ## Helper lemmas -/

theorem insertLe_length {α : Type} (le : α → α → Bool) (x : α) :
    ∀ l : List α, (insertLe le x l).length = l.length + 1 := by
  intro l
  induction l with
  | nil => rfl
  | cons y ys ih => simp only [insertLe]; split <;> simp [ih]

theorem sortLe_length {α : Type} (le : α → α → Bool) (l : List α) :
    (sortLe le l).length = l.length := by
  suffices h : ∀ (l : List α) (acc : List α),
      (l.foldl (fun a x => insertLe le x a) acc).length = acc.length + l.length by
    simpa using h l []
  intro l
  induction l with
  | nil => intro acc; simp
  | cons y ys ih => intro acc; simp [ih, insertLe_length]; omega

theorem sortRat_length (l : List ℚ) : (sortRat l).length = l.length :=
  sortLe_length _ l

theorem foldl_preserves_length {α : Type} (f : List String → α → List String)
    (hf : ∀ row a, (f row a).length = row.length) :
    ∀ (l : List α) (row : List String), (l.foldl f row).length = row.length := by
  intro l
  induction l with
  | nil => intro row; rfl
  | cons a l ih => intro row; rw [List.foldl_cons, ih, hf]

theorem buildRowStrip_length (ciFor : WordToken → Nat) (n : Nat) (rw : List WordToken) :
    (buildRowStrip ciFor n rw).length = n := by
  unfold buildRowStrip
  rw [foldl_preserves_length]
  · simp
  · intro row w
    simp [stripStep]

theorem buildRowSep_length (ciFor : WordToken → Nat) (n : Nat) (rw : List WordToken) :
    (buildRowSep ciFor n rw).length = n := by
  unfold buildRowSep
  rw [foldl_preserves_length]
  · simp
  · intro row w
    unfold sepStep
    split <;> simp

theorem fix_number_splits_length (row : List String) :
    (fix_number_splits row).length = row.length := by
  simp [fix_number_splits]

theorem gapTextRow_some_length (n : Nat) (text : String) (r : List String)
    (hn : 1 ≤ n) (h : gapTextRow n text = some r) : r.length = n := by
  unfold gapTextRow at h
  split at h
  · obtain rfl : _ :: _ = r := Option.some.inj h
    simp; omega
  · exact absurd h (by simp)

theorem gapDataRow_some_length (row : List String) (r : List String)
    (h : gapDataRow row = some r) : r.length = row.length := by
  unfold gapDataRow at h
  split at h
  · exact absurd h (by simp)
  · split at h
    · exact absurd h (by simp)
    · obtain rfl : fix_number_splits _ = r := Option.some.inj h
      rw [fix_number_splits_length]

theorem gapProcessRow_some_length (pb : ℚ) (bnds : List ℚ) (n : Nat) (rw : List WordToken)
    (r : List String) (hn : 1 ≤ n) (h : gapProcessRow pb bnds n rw = some r) :
    r.length = n := by
  unfold gapProcessRow at h
  split at h
  · exact absurd h (by simp)
  · split at h
    · exact gapTextRow_some_length _ _ _ hn h
    · rw [gapDataRow_some_length _ _ h, buildRowStrip_length]

theorem headD_mem_of_ne_nil {α : Type} (t : List α) (d : α) (h : t ≠ []) :
    t.headD d ∈ t := by
  cases t with
  | nil => exact absurd rfl h
  | cons a l => simp

theorem detectTail_some_centers (words : List WordToken) (bi : Nat) (c : List ℚ)
    (s : Option ℚ) (pb : ℚ) (h : detectTail words bi = some (c, s, pb)) :
    6 ≤ c.length ∧ c ≠ [] := by
  unfold detectTail at h
  by_cases h6 : (allCenters (group_rows words 4) bi).length < 6
  · rw [if_pos h6] at h
    exact absurd h (by simp)
  · rw [if_neg h6] at h
    have hc : allCenters (group_rows words 4) bi = c :=
      congrArg (fun x : List ℚ × Option ℚ × ℚ => x.1) (Option.some.inj h)
    rw [hc] at h6
    refine ⟨by omega, ?_⟩
    intro hnil
    rw [hnil] at h6
    simp at h6

theorem detect_some_centers (words : List WordToken) (width : ℚ) (c : List ℚ)
    (s : Option ℚ) (pb : ℚ) (h : detect_col_centers words width = some (c, s, pb)) :
    6 ≤ c.length ∧ c ≠ [] := by
  unfold detect_col_centers at h
  split at h
  · exact absurd h (by simp)
  · split at h
    · exact absurd h (by simp)
    · exact detectTail_some_centers words _ c s pb h

theorem extract_header_none_of_detect_none (words : List WordToken) (width : ℚ)
    (h : detect_col_centers words width = none) :
    extract_header_cols words width = none := by
  unfold extract_header_cols
  split
  · rfl
  · rw [h]

/-! ## Claim C4 — classify_page decision order -/

/-- Claim C4 counterexample: `scanCexPage` carries one image covering more
than half the page, no rule primitives, and 27 character objects forming
only 3 extracted word tokens.  The claim's gate ("fewer than 20 extracted
word tokens", followed by `classify_page_claimed`) classifies it
`"scanned"`, but the source gates on `len(page.chars)`
(pdf_type_detector.py line 27) and `classify_page` falls through to
`"no_lines"`. -/
theorem C4_counterexample :
    classify_page scanCexPage = "no_lines" ∧
    classify_page_claimed scanCexWords.length scanCexPage = "scanned" ∧
    scanCexWords.length < 20 ∧ ¬ scanCexPage.chars.length < 20 := by
  decide

/-- Claim C4 (amended): `classify_page` follows the stated decision order,
with the `"scanned"` gate reading the number of **character objects**
(`page.chars`), not the number of extracted word tokens: `"scanned"` exactly
when embedded images exist, their combined area exceeds half the page area
and fewer than 20 character objects are present; otherwise `"lines"` exactly
when at least 3 vertical rule primitives exist; otherwise `"h_only"` exactly
when at least 3 horizontal rule primitives exist; otherwise `"no_lines"`. -/
theorem C4_amended_classify_page_decision_order : ∀ p : PdfPage,
    (classify_page p = "scanned" ↔
      (p.images ≠ [] ∧ p.chars.length < 20 ∧
        imgArea p > (0.5 : ℚ) * (p.width * p.height))) ∧
    (classify_page p = "lines" ↔ (scannedCheck p = false ∧ 3 ≤ vRuleCount p)) ∧
    (classify_page p = "h_only" ↔
      (scannedCheck p = false ∧ vRuleCount p < 3 ∧ 3 ≤ hRuleCount p)) ∧
    (classify_page p = "no_lines" ↔
      (scannedCheck p = false ∧ vRuleCount p < 3 ∧ hRuleCount p < 3)) := by
  intro p
  have hs : scannedCheck p = true ↔
      (p.images ≠ [] ∧ p.chars.length < 20 ∧
        imgArea p > (0.5 : ℚ) * (p.width * p.height)) := by
    simp [scannedCheck, List.isEmpty_eq_false, and_assoc]
  have d1 : ("scanned" : String) ≠ "lines" := by decide
  have d2 : ("scanned" : String) ≠ "h_only" := by decide
  have d3 : ("scanned" : String) ≠ "no_lines" := by decide
  have d4 : ("lines" : String) ≠ "h_only" := by decide
  have d5 : ("lines" : String) ≠ "no_lines" := by decide
  have d6 : ("h_only" : String) ≠ "no_lines" := by decide
  unfold classify_page
  split_ifs with h1 h2 h3 <;>
    refine ⟨?_, ?_, ?_, ?_⟩ <;>
      simp_all

/-! ## Claim C6 — should_rebuild trigger conditions -/

/-- Claim C6 counterexample: a 3-row candidate whose row-0 cell contains both
`LIFE` and `PENSION` (two keywords) but also an embedded newline; the claim
says `should_rebuild` must be true, yet the source skips cells containing
`"\n"` and returns false. -/
theorem C6_counterexample :
    should_rebuild [["LIFE\nPENSION"], ["a"], ["b"]] = false ∧
    2 ≤ kwHitCount "LIFE\nPENSION" ∧
    (([["LIFE\nPENSION"], ["a"], ["b"]] : List (List String)).take 8).any
        (fun row => row.any (fun cell => 2 ≤ kwHitCount cell)) = true := by
  decide

/-- Claim C6 (amended): `should_rebuild` returns true whenever a cell **free of
embedded line breaks** within the first 8 rows contains at least two of the
fixed column-header keywords, or some cell within the first 5 rows matches the
digit-space-digit corruption pattern, or the candidate is a 2-row block whose
second row contains embedded multi-line text. -/
theorem C6_amended_should_rebuild_triggers : ∀ t : List (List String),
    ((t.take 8).any (fun row => row.any (fun cell =>
        cell ≠ "" && !(cell.data.contains '\n') && decide (2 ≤ kwHitCount cell))) = true ∨
     (t.take 5).any (fun row => row.any (fun cell =>
        cell ≠ "" && digitSpaceSearch cell)) = true ∨
     is_index_table t = true) →
    should_rebuild t = true := by
  intro t h
  unfold should_rebuild
  split_ifs with h1 h2 h3 h4
  · -- empty candidate: none of the trigger conditions can hold
    exfalso
    have ht : t = [] := by simpa [List.isEmpty_iff] using h1
    subst ht
    rcases h with h | h | h <;> simp_all [is_index_table]
  · rfl
  · rfl
  · rfl
  · exfalso
    rcases h with h | h | h
    · exact h3 h
    · exact h4 h
    · exact h2 h

/-- Claim C6 witness: the spec's scenario — `LIFE` and `PENSION` together in a
single (newline-free) cell in row 2 forces a rebuild. -/
theorem C6_witness : should_rebuild [["x"], ["y"], ["LIFE PENSION"], ["z"]] = true :=
  C6_amended_should_rebuild_triggers _ (Or.inl (by decide))

/-! ## Claim C7 — header engine failure gates -/

/-- Claim C7: when the best keyword-scoring row scores below 4, or fewer than
6 column centers are detected, `detect_col_centers` returns `(None, None,
None)`, and `extract_header_cols` then returns `None` — never a partial
table. -/
theorem C7_header_engine_gates : ∀ (words : List WordToken) (width : ℚ),
    ((bestHeaderRow (group_rows words 4)).2 < 4 → detect_col_centers words width = none) ∧
    (∀ bi, (bestHeaderRow (group_rows words 4)).1 = some bi →
      (allCenters (group_rows words 4) bi).length < 6 →
      detect_col_centers words width = none) ∧
    (detect_col_centers words width = none → extract_header_cols words width = none) := by
  intro words width
  refine ⟨?_, ?_, extract_header_none_of_detect_none words width⟩
  · intro h
    unfold detect_col_centers
    rw [if_pos h]
  · intro bi hbi h6
    unfold detect_col_centers
    split
    · rfl
    · rw [hbi]
      show detectTail words bi = none
      unfold detectTail
      rw [if_pos h6]

/-- Claim C7 witness: a page whose only word is `hello` has best keyword score
0 < 4; both the detector and the engine return `none`. -/
theorem C7_witness :
    detect_col_centers plainWords 600 = none ∧ extract_header_cols plainWords 600 = none := by
  have h1 := (C7_header_engine_gates plainWords 600).1 (by decide)
  exact ⟨h1, (C7_header_engine_gates plainWords 600).2.2 h1⟩

/-! ## Claim C8 — gap engine minimum numeric tokens -/

/-- Claim C8: when fewer than 6 qualifying numeric tokens exist (matching the
digits/commas/parentheses/hyphen/period pattern, positioned right of 40% of
the page width), the gap engine returns `None`. -/
theorem C8_gap_engine_min_tokens : ∀ (words : List WordToken) (width : ℚ),
    0 < width →
    (words.filter (fun w =>
      isNumTok w.text && decide (w.x0 > width * (0.40 : ℚ)))).length < 6 →
    extract_gap_based words width none = none := by
  intro words width hw h
  have hwz : ¬(width = 0) := by
    intro h0; rw [h0] at hw; exact lt_irrefl 0 hw
  have hcut : leftCutoff (some width) = width * (0.40 : ℚ) := by
    simp [leftCutoff, hwz]
  have hd : detect_data_columns words (some width) = none := by
    unfold detect_data_columns
    rw [if_pos]
    rw [hcut]
    unfold numXs
    rw [sortRat_length, List.length_map]
    exact h
  show gapExtractOn words width = none
  unfold gapExtractOn
  split
  · rfl
  · rw [hd]

/-- Claim C8 witness: a page with a single numeric token yields `none`. -/
theorem C8_witness : extract_gap_based sparseWords 600 none = none :=
  C8_gap_engine_min_tokens sparseWords 600 (by decide) (by decide)

/-! ## Claim C9 — what the two normalizers repair -/

/-- Claim C9 counterexample: the grid engine's normalizer
(src/src/extractor.py `_fix_number_splits`) does *not* collapse the smashed
date token `"202530th"` to `"2025"` — only the gap/header module's normalizer
does. -/
theorem C9_counterexample :
    fix_number_splits_pp ["202530th"] ≠ ["2025"] ∧
    fix_number_splits_pp ["202530th"] = ["202530th"] := by
  decide

/-- Claim C9 (amended): both normalizers remove whitespace inserted between a
digit and a following digit-or-comma (`"5 ,36,897"` → `"5,36,897"`, `"( 12,195)"`
→ `"(12,195)"`); the smashed-date collapse (`"202530th"` → `"2025"`) is
performed only by the gap/header module's normalizer. -/
theorem C9_amended_normalizer_repairs :
    fix_number_splits ["5 ,36,897"] = ["5,36,897"] ∧
    fix_number_splits ["( 12,195)"] = ["(12,195)"] ∧
    fix_number_splits ["202530th"] = ["2025"] ∧
    fix_number_splits_pp ["5 ,36,897"] = ["5,36,897"] ∧
    fix_number_splits_pp ["( 12,195)"] = ["(12,195)"] := by
  decide

/-! ## Claim C3 — the normalizer is not idempotent -/

/-- Claim C3 counterexample: `re.sub` resumes scanning after each match, so
`"1 2 3"` normalizes to `"12 3"` in one application and to `"123"` only in a
second — both normalizers fail idempotence at this row. -/
theorem C3_counterexample :
    fix_number_splits (fix_number_splits ["1 2 3"]) ≠ fix_number_splits ["1 2 3"] ∧
    fix_number_splits_pp (fix_number_splits_pp ["1 2 3"]) ≠ fix_number_splits_pp ["1 2 3"] := by
  decide

/-! ## Claim C10 — the selector's minimum-rows gate -/

/-- Claim C10: whenever the header engine's extracted table has fewer than 5
rows, `should_use_header_cols` returns `(False, None)` for **every**
pdfplumber candidate — even one satisfying all three preference conditions. -/
theorem C10_selector_min_rows_gate : ∀ (words : List WordToken) (width : ℚ)
    (pp_data hdr : List (List String)),
    extract_header_cols words width = some hdr → hdr.length < 5 →
    should_use_header_cols words width pp_data = (false, none) := by
  intro words width pp_data hdr he h5
  unfold should_use_header_cols
  split
  · rfl
  · split
    · rfl
    · split
      · rfl
      · rename_i hdr2 heq
        rw [he] at heq
        obtain rfl : hdr = hdr2 := Option.some.inj heq
        rw [if_pos]
        simp only [Bool.or_eq_true, decide_eq_true_eq]
        right
        exact h5

/-- Claim C10 witness: the one-header-row page yields a 1-row table, so the
selector refuses it although the accompanying pdfplumber candidate triggers
all three preference conditions. -/
theorem C10_witness :
    should_use_header_cols hdrShortWords 600 ppTriggerData = (false, none) ∧
    pp_col0_has_embedded_number ppTriggerData = true ∧
    pp_has_merged_schedule ppTriggerData = true ∧
    (([["", "LIFE", "PENSION", "HEALTH", "ANNUITY", "TOTAL", "VARIABLE"]] :
        List (List String)).headD []).length > (ppTriggerData.headD []).length := by
  refine ⟨?_, by decide, by decide, by decide⟩
  exact C10_selector_min_rows_gate hdrShortWords 600 ppTriggerData
    [["", "LIFE", "PENSION", "HEALTH", "ANNUITY", "TOTAL", "VARIABLE"]]
    (by decide) (by decide)

/-! ## Claim C5 — the arbitration rule -/

/-- Claim C5: once the header engine is applicable (centers detected, header
table extracted with at least 5 rows), the selector chooses the header table
over `pp_data` exactly when (a) it has strictly more columns than `pp_data`,
or (b) some `pp_data` row among rows 5–19 has a column-0 cell containing an
embedded 3+-digit number, or (c) some `pp_data` cell among rows 3–29 matches
the merged schedule-reference pattern; otherwise pdfplumber is trusted. -/
theorem C5_arbitration_rule : ∀ (words : List WordToken) (width : ℚ)
    (pp_data : List (List String)) (centers : List ℚ) (sx : Option ℚ) (pb : ℚ)
    (hdr : List (List String)),
    detect_col_centers words width = some (centers, sx, pb) →
    extract_header_cols words width = some hdr →
    5 ≤ hdr.length →
    ((should_use_header_cols words width pp_data).1 = true ↔
      ((if pp_data.isEmpty then 0 else (pp_data.headD []).length) < (hdr.headD []).length
        ∨ pp_col0_has_embedded_number pp_data = true
        ∨ pp_has_merged_schedule pp_data = true)) := by
  intro words width pp_data centers sx pb hdr hd he h5
  obtain ⟨h6, hne⟩ := detect_some_centers words width centers sx pb hd
  have hguard : ¬((centers.isEmpty || decide (centers.length < 6)) = true) := by
    simp only [Bool.or_eq_true, decide_eq_true_eq, List.isEmpty_iff]
    push_neg
    exact ⟨hne, by omega⟩
  have hshort : ¬((hdr.isEmpty || decide (hdr.length < 5)) = true) := by
    simp only [Bool.or_eq_true, decide_eq_true_eq, List.isEmpty_iff]
    push_neg
    refine ⟨?_, by omega⟩
    intro h0
    rw [h0] at h5
    simp at h5
  unfold should_use_header_cols
  split
  · rename_i heq
    rw [hd] at heq
    exact absurd heq (by simp)
  · rename_i cc c2 s2 heq
    rw [hd] at heq
    have h3 := Option.some.inj heq
    rw [Prod.mk.injEq, Prod.mk.injEq] at h3
    obtain ⟨rfl, rfl, rfl⟩ := h3
    rw [if_neg hguard]
    split
    · rename_i heq2
      rw [he] at heq2
      exact absurd heq2 (by simp)
    · rename_i hdr2 heq2
      rw [he] at heq2
      obtain rfl : hdr = hdr2 := Option.some.inj heq2
      rw [if_neg hshort]
      by_cases hp : headerPreferred pp_data hdr = true
      · rw [if_pos hp]
        simp only [true_iff]
        unfold headerPreferred at hp
        simp only [Bool.or_eq_true, decide_eq_true_eq, gt_iff_lt] at hp
        exact or_assoc.mp hp
      · rw [if_neg hp]
        simp only [Bool.false_eq_true, false_iff]
        unfold headerPreferred at hp
        simp only [Bool.or_eq_true, decide_eq_true_eq, gt_iff_lt] at hp
        push_neg at hp
        obtain ⟨⟨ha, hb⟩, hc⟩ := hp
        intro hcontra
        rcases hcontra with h | h | h
        · omega
        · exact hb h
        · exact hc h

/-- Claim C5 witness: on the full header page with an empty pdfplumber
candidate, condition (a) holds (7 > 0 columns) and the selector picks the
header engine. -/
theorem C5_witness : (should_use_header_cols hdrFullWords 600 []).1 = true := by
  refine (C5_arbitration_rule hdrFullWords 600 [] [110, 165, 210, 265, 625/2, 370]
    none (165/2) hdrFullOut (by decide) (by decide) (by decide)).mpr ?_
  left
  decide

/-! ## Claim C2 — uniform row length -/

theorem gapFinish_row_lengths (ws : List WordToken) (cr0 : ℚ × ℚ) (crs : List (ℚ × ℚ))
    (t : List (List String)) (h : gapFinish ws cr0 crs = some t) :
    ∀ r ∈ t, r.length = (t.headD []).length := by
  intro r hr
  unfold gapFinish at h
  split at h
  · exact absurd h (by simp)
  · rename_i hne
    obtain rfl : gapResultRows ws cr0 crs = t := Option.some.inj h
    have hlen : ∀ r' ∈ gapResultRows ws cr0 crs, r'.length = 1 + (cr0 :: crs).length := by
      intro r' hr'
      unfold gapResultRows at hr'
      obtain ⟨rw, -, hg⟩ := List.mem_filterMap.mp hr'
      exact gapProcessRow_some_length _ _ _ _ _ (by omega) hg
    rw [hlen r hr, hlen _ (headD_mem_of_ne_nil _ _ (by simpa using hne))]

theorem hdrFinish_row_lengths (ws : List WordToken) (col_centers : List ℚ)
    (sched_x : Option ℚ) (part_bnd : ℚ) (t : List (List String))
    (h : hdrFinish ws col_centers sched_x part_bnd = some t) :
    ∀ r ∈ t, r.length = (t.headD []).length := by
  intro r hr
  unfold hdrFinish at h
  split at h
  · exact absurd h (by simp)
  · rename_i hne
    obtain rfl : _ = t := Option.some.inj h
    have hlen : ∀ r' ∈ (group_rows ws 4).filterMap
        (hdrProcessRow col_centers sched_x part_bnd),
        r'.length = hdrTotalCols col_centers sched_x := by
      intro r' hr'
      obtain ⟨rw, -, hg⟩ := List.mem_filterMap.mp hr'
      unfold hdrProcessRow at hg
      split at hg
      · exact absurd hg (by simp)
      · unfold hdrRowFilter at hg
        split at hg
        · exact absurd hg (by simp)
        · obtain rfl : fix_number_splits _ = r' := Option.some.inj hg
          rw [fix_number_splits_length, buildRowSep_length]
    rw [hlen r hr, hlen _ (headD_mem_of_ne_nil _ _ (by simpa using hne))]

/-- Claim C2: every table returned by the gap engine or the header engine has
rows all of the same length as the first row — each row is built as a
fixed-width list (`num_cols`, respectively `total_cols`), never truncated. -/
theorem C2_uniform_row_length :
    (∀ (words : List WordToken) (width : ℚ) (bbox : Option (ℚ × ℚ × ℚ × ℚ))
       (t : List (List String)), extract_gap_based words width bbox = some t →
       ∀ r ∈ t, r.length = (t.headD []).length) ∧
    (∀ (words : List WordToken) (width : ℚ) (t : List (List String)),
       extract_header_cols words width = some t →
       ∀ r ∈ t, r.length = (t.headD []).length) := by
  constructor
  · have hon : ∀ (ws : List WordToken) (width : ℚ) (t : List (List String)),
        gapExtractOn ws width = some t → ∀ r ∈ t, r.length = (t.headD []).length := by
      intro ws width t h
      unfold gapExtractOn at h
      split at h
      · exact absurd h (by simp)
      · split at h
        · exact absurd h (by simp)
        · exact absurd h (by simp)
        · exact gapFinish_row_lengths _ _ _ _ h
    intro words width bbox t h
    match bbox with
    | none => exact hon words width t h
    | some (a, b, c, d) => exact hon _ width t h
  · intro words width t h
    unfold extract_header_cols at h
    split at h
    · exact absurd h (by simp)
    · split at h
      · exact absurd h (by simp)
      · exact hdrFinish_row_lengths _ _ _ _ _ h

/-- Claim C2 witness: concrete tables from both engines, with a sample row's
length equal to the first row's. -/
theorem C2_witness :
    extract_gap_based gapCexWords 600 none = some gapCexOut ∧
    (["Itemb", "33", "44"] : List String).length = (gapCexOut.headD []).length ∧
    extract_header_cols hdrFullWords 600 = some hdrFullOut ∧
    (["RowB", "12", "", "", "", "", ""] : List String).length = (hdrFullOut.headD []).length := by
  refine ⟨by decide, ?_, by decide, ?_⟩
  · exact C2_uniform_row_length.1 gapCexWords 600 none gapCexOut (by decide) _ (by decide)
  · exact C2_uniform_row_length.2 hdrFullWords 600 hdrFullOut (by decide) _ (by decide)

/-! ## Claim C3 (amended) — each normalizer application shrinks or fixes -/

theorem sub1Go_eq_or_lt : ∀ (l : List Char) (buf : Option (Char × List Char)),
    sub1Go l buf = bufFlat1 buf ++ l ∨
    (sub1Go l buf).length < (bufFlat1 buf).length + l.length := by
  intro l
  induction l with
  | nil =>
    intro buf
    left
    cases buf with
    | none => rfl
    | some db => obtain ⟨d, sps⟩ := db; simp [sub1Go, bufFlat1]
  | cons c rest ih =>
    intro buf
    cases buf with
    | none =>
      simp only [sub1Go]
      split_ifs with hd
      · rcases ih (some (c, [])) with h | h
        · left; rw [h]; simp [bufFlat1]
        · right
          simp [bufFlat1] at h ⊢
          omega
      · rcases ih none with h | h
        · left; rw [h]; simp [bufFlat1]
        · right
          simp [bufFlat1] at h ⊢
          omega
    | some db =>
      obtain ⟨d, sps⟩ := db
      simp only [sub1Go]
      split_ifs with hsp hemp hdig hmatch
      · -- whitespace: buffer the space
        rcases ih (some (d, sps ++ [c])) with h | h
        · left; rw [h]; simp [bufFlat1]
        · right
          simp [bufFlat1] at h ⊢
          omega
      · -- sps empty, digit: emit d, restart buffer at c
        have hsps : sps = [] := by simpa [List.isEmpty_iff] using hemp
        subst hsps
        rcases ih (some (c, [])) with h | h
        · left; rw [h]; simp [bufFlat1]
        · right
          simp [bufFlat1] at h ⊢
          omega
      · -- sps empty, no match possible: emit d and c
        have hsps : sps = [] := by simpa [List.isEmpty_iff] using hemp
        subst hsps
        rcases ih none with h | h
        · left; rw [h]; simp [bufFlat1]
        · right
          simp [bufFlat1] at h ⊢
          omega
      · -- full match: the buffered whitespace is dropped — strictly shorter
        have hsps : sps ≠ [] := by simpa [List.isEmpty_eq_false] using hemp
        have hpos : 1 ≤ sps.length := List.length_pos.mpr hsps
        right
        rcases ih none with h | h
        · rw [h]
          simp [bufFlat1]
          omega
        · simp [bufFlat1] at h ⊢
          omega
      · -- no match: flush buffer then continue at c
        rcases ih none with h | h
        · left; rw [h]; simp [bufFlat1]
        · right
          simp [bufFlat1] at h ⊢
          omega

theorem sub1L_eq_or_lt (l : List Char) :
    sub1L l = l ∨ (sub1L l).length < l.length := by
  have h := sub1Go_eq_or_lt l none
  simpa [sub1L, bufFlat1] using h

theorem sub2Go_eq_or_lt : ∀ (l : List Char) (buf : Option (List Char)),
    sub2Go l buf = bufFlat2 buf ++ l ∨
    (sub2Go l buf).length < (bufFlat2 buf).length + l.length := by
  intro l
  induction l with
  | nil =>
    intro buf
    cases buf with
    | none => left; rfl
    | some sps =>
      cases sps with
      | nil => left; rfl
      | cons a as =>
        right
        simp [sub2Go, bufFlat2]
  | cons c rest ih =>
    intro buf
    cases buf with
    | none =>
      simp only [sub2Go]
      split_ifs with hp
      · rcases ih (some []) with h | h
        · left; rw [h]; simp [bufFlat2, hp]
        · right
          simp [bufFlat2] at h ⊢
          omega
      · rcases ih none with h | h
        · left; rw [h]; simp [bufFlat2]
        · right
          simp [bufFlat2] at h ⊢
          omega
    | some sps =>
      simp only [sub2Go]
      split_ifs with hsp hp
      · rcases ih (some (sps ++ [c])) with h | h
        · left; rw [h]; simp [bufFlat2]
        · right
          simp [bufFlat2] at h ⊢
          omega
      · -- a new open parenthesis: close the old buffer, dropping its spaces
        by_cases hsps : sps = []
        · subst hsps
          rcases ih (some []) with h | h
          · left; rw [h]; simp [bufFlat2, hp]
          · right
            simp [bufFlat2] at h ⊢
            omega
        · have hpos : 1 ≤ sps.length := List.length_pos.mpr hsps
          right
          rcases ih (some []) with h | h
          · rw [h]
            simp [bufFlat2]
            omega
          · simp [bufFlat2] at h ⊢
            omega
      · by_cases hsps : sps = []
        · subst hsps
          rcases ih none with h | h
          · left; rw [h]; simp [bufFlat2]
          · right
            simp [bufFlat2] at h ⊢
            omega
        · have hpos : 1 ≤ sps.length := List.length_pos.mpr hsps
          right
          rcases ih none with h | h
          · rw [h]
            simp [bufFlat2]
            omega
          · simp [bufFlat2] at h ⊢
            omega

theorem sub2L_eq_or_lt (l : List Char) :
    sub2L l = l ∨ (sub2L l).length < l.length := by
  have h := sub2Go_eq_or_lt l none
  simpa [sub2L, bufFlat2] using h

theorem isPrefixOf_length_le : ∀ (p l : List Char), p.isPrefixOf l = true → p.length ≤ l.length := by
  intro p
  induction p with
  | nil =>
    intro l _
    simp
  | cons a as ih =>
    intro l h
    cases l with
    | nil => simp [List.isPrefixOf] at h
    | cons b bs =>
      simp only [List.isPrefixOf, Bool.and_eq_true] at h
      have hb := ih bs h.2
      simp only [List.length_cons]
      omega

theorem smashAlt_le (m r : List Char) (h : smashAlt m = some r) :
    r.length + 1 ≤ m.length := by
  unfold smashAlt at h
  split_ifs at h with h30 h31
  · obtain rfl : m.drop 4 = r := Option.some.inj h
    have hp : ("30th".data).length ≤ m.length := isPrefixOf_length_le _ _ h30
    have h4 : ("30th".data).length = 4 := by decide
    simp only [List.length_drop]
    omega
  · obtain rfl : m.drop 4 = r := Option.some.inj h
    have hp : ("31st".data).length ≤ m.length := isPrefixOf_length_le _ _ h31
    have h4 : ("31st".data).length = 4 := by decide
    simp only [List.length_drop]
    omega
  · -- [A-Z][a-z]+ branch
    split at h
    · rename_i c cs
      split_ifs at h with hup hlow
      obtain rfl : cs.drop (cs.takeWhile Char.isLower).length = r := Option.some.inj h
      have hk : 1 ≤ (cs.takeWhile Char.isLower).length := by
        have hne : cs.takeWhile Char.isLower ≠ [] := by
          simpa [List.isEmpty_eq_false] using hlow
        exact List.length_pos.mpr hne
      have hk2 : (cs.takeWhile Char.isLower).length ≤ cs.length :=
        (List.takeWhile_sublist _).length_le
      simp only [List.length_drop, List.length_cons]
      omega
    · exact absurd h (by simp)

theorem smashAt_spec (l y4 after : List Char) (h : smashAt l = some (y4, after)) :
    y4.length = 4 ∧ after.length + 5 ≤ l.length := by
  unfold smashAt at h
  split_ifs at h with hguard
  · simp only [Bool.and_eq_true, decide_eq_true_eq] at hguard
    obtain ⟨hlen4, -⟩ := hguard
    split at h
    · rename_i rest2 heq
      have hinj := Option.some.inj h
      rw [Prod.mk.injEq] at hinj
      obtain ⟨rfl, rfl⟩ := hinj
      have hle : rest2.length + 1 ≤ ((l.drop 4).dropWhile isPySpace).length :=
        smashAlt_le _ _ heq
      have hle2 : ((l.drop 4).dropWhile isPySpace).length ≤ (l.drop 4).length :=
        (List.dropWhile_sublist _).length_le
      have hl4 : 4 ≤ l.length := by
        have ht := List.length_take 4 l
        omega
      refine ⟨hlen4, ?_⟩
      simp only [List.length_drop] at hle2
      omega
    · exact absurd h (by simp)

theorem smashGo_eq_or_lt : ∀ (fuel : Nat) (l : List Char),
    smashGo fuel l = l ∨ (smashGo fuel l).length < l.length := by
  intro fuel
  induction fuel with
  | zero => intro l; left; rfl
  | succ f ih =>
    intro l
    cases l with
    | nil => left; rfl
    | cons c rest =>
      simp only [smashGo]
      cases hm : smashAt (c :: rest) with
      | none =>
        rcases ih rest with h | h
        · left; rw [h]
        · right; simp only [List.length_cons]; omega
      | some p =>
        obtain ⟨y4, after⟩ := p
        obtain ⟨h4, hbound⟩ := smashAt_spec _ _ _ hm
        right
        have hrec : (smashGo f after).length ≤ after.length := by
          rcases ih after with h | h
          · rw [h]
          · omega
        simp only [List.length_append, List.length_cons] at hbound ⊢
        omega

theorem smashSub_eq_or_lt (l : List Char) :
    smashSub l = l ∨ (smashSub l).length < l.length :=
  smashGo_eq_or_lt l.length l

theorem dropWhile_eq_or_lt (p : Char → Bool) (l : List Char) :
    l.dropWhile p = l ∨ (l.dropWhile p).length < l.length := by
  cases l with
  | nil => left; rfl
  | cons c cs =>
    rw [List.dropWhile_cons]
    split_ifs with hp
    · right
      have hle := (List.dropWhile_sublist (l := cs) p).length_le
      simp only [List.length_cons]
      omega
    · left; rfl

theorem stripL_eq_or_lt (l : List Char) :
    stripL l = l ∨ (stripL l).length < l.length := by
  unfold stripL
  rcases dropWhile_eq_or_lt isPySpace l with h1 | h1
  · rw [h1]
    rcases dropWhile_eq_or_lt isPySpace l.reverse with h2 | h2
    · left; rw [h2, List.reverse_reverse]
    · right
      rw [List.length_reverse]
      rw [List.length_reverse] at h2
      exact h2
  · right
    have hle : ((l.dropWhile isPySpace).reverse.dropWhile isPySpace).length ≤
        (l.dropWhile isPySpace).reverse.length := (List.dropWhile_sublist _).length_le
    rw [List.length_reverse]
    rw [List.length_reverse] at hle
    omega

theorem strMk_length (l : List Char) : (String.mk l).length = l.length := rfl

theorem strMk_eq_iff (l : List Char) (s : String) : String.mk l = s ↔ l = s.data := by
  cases s with
  | mk d =>
    constructor
    · intro h
      injection h
    · intro h
      rw [h]

theorem fixCellGap_eq_or_lt (c : String) :
    fixCellGap c = c ∨ (fixCellGap c).length < c.length := by
  unfold fixCellGap
  split_ifs with h0
  · left; rfl
  · have h1 := sub1L_eq_or_lt c.data
    have h2 := sub2L_eq_or_lt (sub1L c.data)
    have h3 := smashSub_eq_or_lt (sub2L (sub1L c.data))
    have h4 := stripL_eq_or_lt (smashSub (sub2L (sub1L c.data)))
    have e1 : (sub1L c.data).length ≤ c.data.length := by
      rcases h1 with h | h
      exacts [le_of_eq (congrArg List.length h), le_of_lt h]
    have e2 : (sub2L (sub1L c.data)).length ≤ (sub1L c.data).length := by
      rcases h2 with h | h
      exacts [le_of_eq (congrArg List.length h), le_of_lt h]
    have e3 : (smashSub (sub2L (sub1L c.data))).length ≤ (sub2L (sub1L c.data)).length := by
      rcases h3 with h | h
      exacts [le_of_eq (congrArg List.length h), le_of_lt h]
    have e4 : (stripL (smashSub (sub2L (sub1L c.data)))).length ≤
        (smashSub (sub2L (sub1L c.data))).length := by
      rcases h4 with h | h
      exacts [le_of_eq (congrArg List.length h), le_of_lt h]
    rcases h1 with a1 | a1
    · rcases h2 with a2 | a2
      · rcases h3 with a3 | a3
        · rcases h4 with a4 | a4
          · left
            rw [strMk_eq_iff, a4, a3, a2, a1]
          · right
            rw [strMk_length]
            show _ < c.data.length
            omega
        · right
          rw [strMk_length]
          show _ < c.data.length
          omega
      · right
        rw [strMk_length]
        show _ < c.data.length
        omega
    · right
      rw [strMk_length]
      show _ < c.data.length
      omega

theorem fixCellPP_eq_or_lt (c : String) :
    fixCellPP c = c ∨ (fixCellPP c).length < c.length := by
  unfold fixCellPP
  split_ifs with h0
  · left; rfl
  · have h1 := sub1L_eq_or_lt c.data
    have h2 := sub2L_eq_or_lt (sub1L c.data)
    have e1 : (sub1L c.data).length ≤ c.data.length := by
      rcases h1 with h | h
      exacts [le_of_eq (congrArg List.length h), le_of_lt h]
    have e2 : (sub2L (sub1L c.data)).length ≤ (sub1L c.data).length := by
      rcases h2 with h | h
      exacts [le_of_eq (congrArg List.length h), le_of_lt h]
    rcases h1 with a1 | a1
    · rcases h2 with a2 | a2
      · left
        rw [strMk_eq_iff, a2, a1]
      · right
        rw [strMk_length]
        show _ < c.data.length
        omega
    · right
      rw [strMk_length]
      show _ < c.data.length
      omega

theorem mapCell_eq_or_lt (f : String → String)
    (hf : ∀ c, f c = c ∨ (f c).length < c.length) :
    ∀ row : List String, row.map f = row ∨ rowLen (row.map f) < rowLen row := by
  intro row
  induction row with
  | nil => left; rfl
  | cons c cs ih =>
    have hc : (f c).length ≤ c.length := by
      rcases hf c with h | h
      exacts [le_of_eq (congrArg String.length h), le_of_lt h]
    have hcs : rowLen (cs.map f) ≤ rowLen cs := by
      rcases ih with h | h
      exacts [le_of_eq (congrArg rowLen h), le_of_lt h]
    rcases hf c with he | hl
    · rcases ih with he2 | hl2
      · left; rw [List.map_cons, he, he2]
      · right
        simp only [List.map_cons, rowLen, List.sum_cons] at hl2 hcs ⊢
        omega
    · right
      simp only [List.map_cons, rowLen, List.sum_cons] at hcs ⊢
      omega

theorem fix_number_splits_eq_or_lt (row : List String) :
    fix_number_splits row = row ∨ rowLen (fix_number_splits row) < rowLen row :=
  mapCell_eq_or_lt fixCellGap fixCellGap_eq_or_lt row

theorem fix_number_splits_pp_eq_or_lt (row : List String) :
    fix_number_splits_pp row = row ∨ rowLen (fix_number_splits_pp row) < rowLen row :=
  mapCell_eq_or_lt fixCellPP fixCellPP_eq_or_lt row

theorem iterate_reaches_fix (f : List String → List String)
    (hf : ∀ r, f r = r ∨ rowLen (f r) < rowLen r) :
    ∀ (k : Nat) (r : List String), rowLen r ≤ k →
      ∃ n, n ≤ k ∧ f (f^[n] r) = f^[n] r := by
  intro k
  induction k with
  | zero =>
    intro r h0
    rcases hf r with he | hl
    · exact ⟨0, le_refl 0, by simpa using he⟩
    · omega
  | succ k ih =>
    intro r h
    rcases hf r with he | hl
    · exact ⟨0, by omega, by simpa using he⟩
    · obtain ⟨n, hn, hfix⟩ := ih (f r) (by omega)
      refine ⟨n + 1, by omega, ?_⟩
      rw [Function.iterate_succ_apply]
      exact hfix

/-- Claim C3 (amended): neither `_fix_number_splits` is idempotent in one
application (see the counterexample `["1 2 3"]`); instead each application
either returns the row unchanged or strictly decreases the total cell length,
so repeated application reaches a fixed point within `rowLen row` steps. -/
theorem C3_amended_normalizer_reaches_fixpoint : ∀ row : List String,
    (fix_number_splits row = row ∨ rowLen (fix_number_splits row) < rowLen row) ∧
    (fix_number_splits_pp row = row ∨ rowLen (fix_number_splits_pp row) < rowLen row) ∧
    (∃ n, n ≤ rowLen row ∧
      fix_number_splits (fix_number_splits^[n] row) = fix_number_splits^[n] row) ∧
    (∃ n, n ≤ rowLen row ∧
      fix_number_splits_pp (fix_number_splits_pp^[n] row) = fix_number_splits_pp^[n] row) := by
  intro row
  exact ⟨fix_number_splits_eq_or_lt row, fix_number_splits_pp_eq_or_lt row,
    iterate_reaches_fix fix_number_splits fix_number_splits_eq_or_lt (rowLen row) row
      (le_refl _),
    iterate_reaches_fix fix_number_splits_pp fix_number_splits_pp_eq_or_lt (rowLen row) row
      (le_refl _)⟩

/-! ## Claim C1 — token-to-cell accounting -/

theorem dropWhile_noop_of_all (d : List Char) (hall : ∀ ch ∈ d, isPySpace ch = false) :
    d.dropWhile isPySpace = d := by
  cases d with
  | nil => rfl
  | cons c cs =>
    rw [List.dropWhile_cons, if_neg]
    simp [hall c (by simp)]

theorem stripL_space_cons (d : List Char) (hall : ∀ ch ∈ d, isPySpace ch = false) :
    stripL (' ' :: d) = d := by
  unfold stripL
  rw [List.dropWhile_cons, if_pos (by decide)]
  rw [dropWhile_noop_of_all d hall,
    dropWhile_noop_of_all d.reverse (fun ch hch => hall ch (List.mem_reverse.mp hch)),
    List.reverse_reverse]

theorem stripL_noop_ends (l : List Char)
    (hh : ∀ ch, l.head? = some ch → isPySpace ch = false)
    (hl : ∀ ch, l.getLast? = some ch → isPySpace ch = false) :
    stripL l = l := by
  cases l with
  | nil => rfl
  | cons c cs =>
    have hc : isPySpace c = false := hh c rfl
    unfold stripL
    rw [List.dropWhile_cons, if_neg (by simp [hc])]
    cases hrv : (c :: cs).reverse with
    | nil => exact absurd (congrArg List.length hrv) (by simp)
    | cons d ds =>
      have hd : isPySpace d = false := by
        apply hl d
        rw [← List.head?_reverse, hrv]
        rfl
      rw [List.dropWhile_cons, if_neg (by simp [hd]), ← hrv, List.reverse_reverse]

theorem joinSp_cons_append_one : ∀ (t0 : String) (ts : List String) (t : String),
    joinSp ((t0 :: ts) ++ [t]) = joinSp (t0 :: ts) ++ " " ++ t := by
  intro t0 ts
  induction ts generalizing t0 with
  | nil => intro t; rfl
  | cons t1 ts' ih =>
    intro t
    show t0 ++ " " ++ joinSp ((t1 :: ts') ++ [t]) = (t0 ++ " " ++ joinSp (t1 :: ts')) ++ " " ++ t
    rw [ih t1]
    simp [String.append_assoc]

theorem joinSp_empty_iff (ts : List String) (hts : ∀ u ∈ ts, u.data ≠ []) :
    joinSp ts = "" ↔ ts = [] := by
  cases ts with
  | nil => simp [joinSp]
  | cons t0 ts' =>
    cases ts' with
    | nil =>
      show t0 = "" ↔ _
      constructor
      · intro he
        exact absurd (congrArg String.data he) (hts t0 (by simp))
      · intro hc
        simp at hc
    | cons t1 ts'' =>
      constructor
      · intro he
        have hd := congrArg String.data he
        rw [show joinSp (t0 :: t1 :: ts'') = t0 ++ " " ++ joinSp (t1 :: ts'') from rfl] at hd
        simp [String.data_append, show (" " : String).data = [' '] from rfl] at hd
      · intro hc
        simp at hc

theorem joinSp_data_head? (t0 : String) (ts : List String) (h : t0.data ≠ []) :
    (joinSp (t0 :: ts)).data.head? = t0.data.head? := by
  cases ts with
  | nil => rfl
  | cons t1 ts' =>
    show ((t0 ++ " " ++ joinSp (t1 :: ts')).data).head? = _
    obtain ⟨a, as, ha⟩ : ∃ a as, t0.data = a :: as := by
      cases ht : t0.data with
      | nil => exact absurd ht h
      | cons a as => exact ⟨a, as, rfl⟩
    simp [String.data_append, ha]

theorem sep_append_good (ts : List String) (t : String)
    (hts : ∀ u ∈ ts, u.data ≠ []) :
    joinSp ts ++ (if joinSp ts = "" then "" else " ") ++ t = joinSp (ts ++ [t]) := by
  by_cases h0 : ts = []
  · subst h0
    show "" ++ (if ("" : String) = "" then "" else " ") ++ t = t
    rw [if_pos rfl]
    apply String.ext
    simp [String.data_append]
  · rw [if_neg (fun he => h0 ((joinSp_empty_iff ts hts).mp he))]
    cases ts with
    | nil => exact absurd rfl h0
    | cons t0 ts' => rw [joinSp_cons_append_one]

theorem strip_append_good (ts : List String) (t : String)
    (hts : ∀ u ∈ ts, u.data ≠ [] ∧ ∀ ch ∈ u.data, isPySpace ch = false)
    (ht : t.data ≠ []) (htc : ∀ ch ∈ t.data, isPySpace ch = false) :
    pyStrip (joinSp ts ++ " " ++ t) = joinSp (ts ++ [t]) := by
  cases ts with
  | nil =>
    apply String.ext
    show stripL (("" ++ " " ++ t).data) = t.data
    have hd : ("" ++ " " ++ t).data = ' ' :: t.data := rfl
    rw [hd]
    exact stripL_space_cons t.data htc
  | cons t0 ts' =>
    apply String.ext
    show stripL ((joinSp (t0 :: ts') ++ " " ++ t).data) = (joinSp ((t0 :: ts') ++ [t])).data
    rw [joinSp_cons_append_one]
    have hj : (joinSp (t0 :: ts')).data ≠ [] := by
      intro hnil
      have : joinSp (t0 :: ts') = "" := String.ext hnil
      exact absurd ((joinSp_empty_iff (t0 :: ts') (fun u hu => (hts u hu).1)).mp this)
        (by simp)
    obtain ⟨a, as, ha⟩ : ∃ a as, (joinSp (t0 :: ts')).data = a :: as := by
      cases hj2 : (joinSp (t0 :: ts')).data with
      | nil => exact absurd hj2 hj
      | cons a as => exact ⟨a, as, rfl⟩
    obtain ⟨b, bs, hb⟩ : ∃ b bs, t.data = b :: bs := by
      cases ht2 : t.data with
      | nil => exact absurd ht2 ht
      | cons b bs => exact ⟨b, bs, rfl⟩
    have ha2 : a ∈ t0.data := by
      have hhead := joinSp_data_head? t0 ts' (hts t0 (by simp)).1
      rw [ha] at hhead
      obtain ⟨ys, hys⟩ := List.head?_eq_some_iff.mp hhead.symm
      rw [hys]
      simp
    apply stripL_noop_ends
    · intro ch hch
      have hu : (joinSp (t0 :: ts') ++ " " ++ t).data = a :: (as ++ ' ' :: t.data) := by
        simp [String.data_append, ha, show (" " : String).data = [' '] from rfl]
      rw [hu] at hch
      have hach : a = ch := by simpa using hch
      rw [← hach]
      exact (hts t0 (by simp)).2 a ha2
    · intro ch hch
      have hu : (joinSp (t0 :: ts') ++ " " ++ t).data =
          ((joinSp (t0 :: ts')).data ++ [' ']) ++ t.data := by
        simp [String.data_append, show (" " : String).data = [' '] from rfl]
      rw [hu, List.getLast?_append, hb] at hch
      have hlast : (b :: bs).getLast?.isSome := by
        rw [List.getLast?_isSome]
        simp
      cases hbl : (b :: bs).getLast? with
      | none => rw [hbl] at hlast; simp at hlast
      | some x =>
        have hxch : x = ch := by
          rw [hbl] at hch
          simpa using hch
        rw [← hxch]
        exact htc x (by rw [hb]; exact List.mem_of_getLast?_eq_some hbl)

theorem getD_set_self' (l : List String) (i : Nat) (v : String) (h : i < l.length) :
    (l.set i v).getD i "" = v := by
  rw [List.getD_eq_getElem?_getD, List.getElem?_set_self h]
  rfl

theorem getD_set_ne' (l : List String) (i j : Nat) (v : String) (h : i ≠ j) :
    (l.set i v).getD j "" = l.getD j "" := by
  rw [List.getD_eq_getElem?_getD, List.getElem?_set_ne h, ← List.getD_eq_getElem?_getD]

theorem getD_replicate_empty (n c : Nat) : (List.replicate n "").getD c "" = "" := by
  rw [List.getD_eq_getElem?_getD, List.getElem?_replicate]
  split <;> rfl

theorem buildRowSep_cell (ciFor : WordToken → Nat) (n : Nat) :
    ∀ rw : List WordToken, (∀ w ∈ rw, ciFor w < n) →
    (∀ w ∈ rw, w.text.data ≠ [] ∧ ∀ ch ∈ w.text.data, isPySpace ch = false) →
    ∀ c, c < n →
    (buildRowSep ciFor n rw).getD c "" =
      joinSp ((rw.filter (fun w => ciFor w == c)).map (fun w => w.text)) := by
  intro rw
  induction rw using List.reverseRecOn with
  | nil =>
    intro _ _ c _
    show (List.replicate n "").getD c "" = joinSp []
    rw [getD_replicate_empty]
    rfl
  | append_singleton rw w ih =>
    intro hci hgood c hc
    have hci' : ∀ v ∈ rw, ciFor v < n := fun v hv => hci v (by simp [hv])
    have hgood' : ∀ v ∈ rw, v.text.data ≠ [] ∧ ∀ ch ∈ v.text.data, isPySpace ch = false :=
      fun v hv => hgood v (by simp [hv])
    have hlen : (buildRowSep ciFor n rw).length = n := buildRowSep_length ciFor n rw
    have hstep : buildRowSep ciFor n (rw ++ [w]) =
        sepStep ciFor n (buildRowSep ciFor n rw) w := by
      unfold buildRowSep
      rw [List.foldl_append]
      rfl
    rw [hstep]
    unfold sepStep
    rw [if_pos (hci w (by simp))]
    by_cases hcw : ciFor w = c
    · rw [hcw]
      rw [getD_set_self' _ _ _ (by rw [hlen]; exact hc)]
      rw [ih hci' hgood' c hc]
      have hfw : (rw ++ [w]).filter (fun v => ciFor v == c) =
          rw.filter (fun v => ciFor v == c) ++ [w] := by
        rw [List.filter_append]
        simp [hcw]
      rw [hfw, List.map_append]
      exact sep_append_good _ _ (fun u hu => by
        obtain ⟨v, hv, rfl⟩ := List.mem_map.mp hu
        exact (hgood' v (List.mem_filter.mp hv).1).1)
    · rw [getD_set_ne' _ _ _ _ hcw]
      rw [ih hci' hgood' c hc]
      have hfw : (rw ++ [w]).filter (fun v => ciFor v == c) =
          rw.filter (fun v => ciFor v == c) := by
        rw [List.filter_append]
        simp [hcw]
      rw [hfw]

theorem buildRowStrip_cell (ciFor : WordToken → Nat) (n : Nat) :
    ∀ rw : List WordToken, (∀ w ∈ rw, ciFor w < n) →
    (∀ w ∈ rw, w.text.data ≠ [] ∧ ∀ ch ∈ w.text.data, isPySpace ch = false) →
    ∀ c, c < n →
    (buildRowStrip ciFor n rw).getD c "" =
      joinSp ((rw.filter (fun w => ciFor w == c)).map (fun w => w.text)) := by
  intro rw
  induction rw using List.reverseRecOn with
  | nil =>
    intro _ _ c _
    show (List.replicate n "").getD c "" = joinSp []
    rw [getD_replicate_empty]
    rfl
  | append_singleton rw w ih =>
    intro hci hgood c hc
    have hci' : ∀ v ∈ rw, ciFor v < n := fun v hv => hci v (by simp [hv])
    have hgood' : ∀ v ∈ rw, v.text.data ≠ [] ∧ ∀ ch ∈ v.text.data, isPySpace ch = false :=
      fun v hv => hgood v (by simp [hv])
    have hlen : (buildRowStrip ciFor n rw).length = n := buildRowStrip_length ciFor n rw
    have hstep : buildRowStrip ciFor n (rw ++ [w]) =
        stripStep ciFor (buildRowStrip ciFor n rw) w := by
      unfold buildRowStrip
      rw [List.foldl_append]
      rfl
    rw [hstep]
    unfold stripStep
    by_cases hcw : ciFor w = c
    · rw [hcw]
      rw [getD_set_self' _ _ _ (by rw [hlen]; exact hc)]
      rw [ih hci' hgood' c hc]
      have hfw : (rw ++ [w]).filter (fun v => ciFor v == c) =
          rw.filter (fun v => ciFor v == c) ++ [w] := by
        rw [List.filter_append]
        simp [hcw]
      rw [hfw, List.map_append]
      exact strip_append_good _ _ (fun u hu => by
          obtain ⟨v, hv, rfl⟩ := List.mem_map.mp hu
          exact hgood' v (List.mem_filter.mp hv).1)
        (hgood w (by simp)).1 (hgood w (by simp)).2
    · rw [getD_set_ne' _ _ _ _ hcw]
      rw [ih hci' hgood' c hc]
      have hfw : (rw ++ [w]).filter (fun v => ciFor v == c) =
          rw.filter (fun v => ciFor v == c) := by
        rw [List.filter_append]
        simp [hcw]
      rw [hfw]

/-- Claim C1 counterexample: on a gap-engine page whose bottom row reads
`Date of upload`, the engine returns a table (three rows) in which the input
token text `upload` appears in **no** cell — the footer row is dropped whole,
so token text is lost, contradicting the claim. -/
theorem C1_counterexample :
    extract_gap_based gapCexWords 600 none = some gapCexOut ∧
    "upload" ∈ gapCexWords.map (fun w => w.text) ∧
    gapCexOut.all (fun r => r.all (fun c => !containsStr c "upload")) = true := by
  refine ⟨by decide, by decide, by decide⟩

/-- Claim C1 (amended): within every row that an engine keeps, each WordToken
is assigned to exactly one cell, and each cell of the assembled
(pre-normalization) row is exactly the space-joined texts of the tokens
assigned to it — for the gap engine's strip-style filling and the header
engine's separator-style filling alike.  (Rows matching a footer signature,
and blank rows, are dropped whole, so their tokens' text is lost, as the
counterexample shows; `fix_number_splits` may afterwards rewrite cell
text.) -/
theorem C1_amended_exact_cell_contents : ∀ (ciFor : WordToken → Nat) (n : Nat)
    (rw : List WordToken),
    (∀ w ∈ rw, ciFor w < n) →
    (∀ w ∈ rw, w.text.data ≠ [] ∧ ∀ ch ∈ w.text.data, isPySpace ch = false) →
    ∀ c, c < n →
    (buildRowStrip ciFor n rw).getD c "" =
      joinSp ((rw.filter (fun w => ciFor w == c)).map (fun w => w.text)) ∧
    (buildRowSep ciFor n rw).getD c "" =
      joinSp ((rw.filter (fun w => ciFor w == c)).map (fun w => w.text)) := by
  intro ciFor n rw hci hgood c hc
  exact ⟨buildRowStrip_cell ciFor n rw hci hgood c hc,
    buildRowSep_cell ciFor n rw hci hgood c hc⟩

/-- Claim C1 witness: a concrete two-token row, with the numeric token landing
exactly and only in column 1 under both filling disciplines. -/
theorem C1_witness :
    (buildRowStrip (fun w => if w.x0 < (100 : ℚ) then 0 else 1) 2
      [⟨"Premium", 10, 60, 0, 10⟩, ⟨"123", 200, 220, 0, 10⟩]).getD 1 "" = "123" ∧
    (buildRowSep (fun w => if w.x0 < (100 : ℚ) then 0 else 1) 2
      [⟨"Premium", 10, 60, 0, 10⟩, ⟨"123", 200, 220, 0, 10⟩]).getD 1 "" = "123" := by
  have h := C1_amended_exact_cell_contents
    (fun w => if w.x0 < (100 : ℚ) then 0 else 1) 2
    [⟨"Premium", 10, 60, 0, 10⟩, ⟨"123", 200, 220, 0, 10⟩]
    (by decide) (by decide) 1 (by decide)
  exact ⟨h.1.trans (by decide), h.2.trans (by decide)⟩
